import Mathlib

/-!
# pglogrepl WAL parser: a shallow embedding

The definitions below follow `src/walconv.go`, `src/pgtypes.go`,
`src/waldatatypes.go` and `src/walparser.go`.

Conventions of the embedding:

* a Go `byte` is a `Fin 256`, a `[]byte` (and a Go `string`, which is a byte
  sequence) is a `List Byte`; a slice's capacity is taken to be its length;
* Go's `int8`/`int16`/`int32`/`int64` values are `Int`s, produced from the
  unsigned big-endian value by an explicit two's-complement wrap; Go's `int`
  is 64 bits wide, every offset computed here stays far below that bound;
* a Go function returning `(value, error)` that may also panic at run time
  (index or slice out of range, `make` with a negative capacity) returns a
  `Res`: `ok`, `error` or `panic`;
* the map `relations map[int32]RelationWalData` is a function
  `Int → Option RelationWalData`.
-/

namespace Pglogrepl

/-! ## Bytes, results -/

abbrev Byte := Fin 256

abbrev Bytes := List Byte

/-- The errors built by the `fmt.Errorf` calls of the package, one
constructor per call site, carrying the formatted arguments. -/
inductive Err where
  /-- Message `bad format for Insert, expected 'N' flag, but got %d (%s)`. -/
  | insertBadFlag (ident : Byte)
  /-- Message `relation with ID=%d was not found`. -/
  | relationNotFound (id : Int)
  /-- Message `flag 'K' for Update is unsupported`. -/
  | updateUnsupportedK
  /-- Message `flag 'O' for Update is unsupported`. -/
  | updateUnsupportedO
  /-- Message `bad format to Update, expected 'K', 'O' or 'N' flag`. -/
  | updateBadFlag
  /-- Message `bad format for DELETE, expected 'K' or 'O' flag, but got %d (%s)`. -/
  | deleteBadFlag (ident : Byte)
  /-- Message `bad format of Truncate`. -/
  | truncateBadFormat
  /-- Message `mismatch schema with data. Expected %d columns, but got %d`. -/
  | tupleMismatch (n : Int) (columnsNum : Int)
  /-- Message `bad TupleData format, expected 'n', 'u' or 't' flag`. -/
  | tupleBadFlag
  deriving DecidableEq, Repr

/-- The text of an error, as `fmt.Errorf` formats it (`%s` of a one-byte
string is rendered here as the character of that code point). -/
def Err.message : Err → String
  | .insertBadFlag ident =>
      "bad format for Insert, expected 'N' flag, but got " ++ toString ident.val ++
        " (" ++ String.singleton (Char.ofNat ident.val) ++ ")"
  | .relationNotFound id => "relation with ID=" ++ toString id ++ " was not found"
  | .updateUnsupportedK => "flag 'K' for Update is unsupported"
  | .updateUnsupportedO => "flag 'O' for Update is unsupported"
  | .updateBadFlag => "bad format to Update, expected 'K', 'O' or 'N' flag"
  | .deleteBadFlag ident =>
      "bad format for DELETE, expected 'K' or 'O' flag, but got " ++ toString ident.val ++
        " (" ++ String.singleton (Char.ofNat ident.val) ++ ")"
  | .truncateBadFormat => "bad format of Truncate"
  | .tupleMismatch n c =>
      "mismatch schema with data. Expected " ++ toString n ++ " columns, but got " ++ toString c
  | .tupleBadFlag => "bad TupleData format, expected 'n', 'u' or 't' flag"

/-- Outcome of a Go call: a normal return without error, a returned error,
or a run-time panic. -/
inductive Res (α : Type) where
  | ok (a : α)
  | error (e : Err)
  | panic
  deriving DecidableEq, Repr

def Res.bind {α β : Type} (x : Res α) (f : α → Res β) : Res β :=
  match x with
  | .ok a => f a
  | .error e => .error e
  | .panic => .panic

instance : Monad Res where
  pure := Res.ok
  bind := Res.bind

/-- Slice expression `bs[lo:hi]`: panics unless `0 ≤ lo ≤ hi ≤ cap(bs)`. The
capacity of a byte slice is taken to be its length (a frame that owns its
buffer exactly); on a frame cut from a larger buffer Go reads up to the
capacity where this definition panics. The theorems below that conclude a
panic rest on an index expression or on `make`, never on this bound. -/
def slice (bs : Bytes) (lo hi : Int) : Res Bytes :=
  if 0 ≤ lo ∧ lo ≤ hi ∧ hi ≤ bs.length then
    .ok ((bs.drop lo.toNat).take (hi - lo).toNat)
  else .panic

/-- Slice expression `bs[lo:]`: panics unless `0 ≤ lo ≤ len(bs)`. -/
def sliceFrom (bs : Bytes) (lo : Int) : Res Bytes :=
  if 0 ≤ lo ∧ lo ≤ bs.length then .ok (bs.drop lo.toNat) else .panic

/-- Index expression `xs[i]`: panics unless `0 ≤ i < len(xs)`. -/
def index {α : Type} (xs : List α) (i : Int) : Res α :=
  if 0 ≤ i then
    match xs.get? i.toNat with
    | some x => .ok x
    | none => .panic
  else .panic

/-! ## walconv.go -/

/-- Unsigned big-endian value of a byte string. -/
def beUint (bs : Bytes) : Nat :=
  bs.foldl (fun acc b => acc * 256 + b.val) 0

/-- Conversion of an unsigned `w`-bit value to the signed type of the same
width (Go's `int64(x)`, `int32(x)`, `int16(x)`, `int8(x)`). -/
def toSigned (w : Nat) (u : Nat) : Int :=
  if u % 2 ^ w < 2 ^ (w - 1) then (u % 2 ^ w : Nat) else (u % 2 ^ w : Nat) - (2 ^ w : Nat)

/-- `binary.BigEndian.Uint64` reads `bs[0..7]` and panics on a shorter slice. -/
def toInt64 (bs : Bytes) : Res Int :=
  if 8 ≤ bs.length then .ok (toSigned 64 (beUint (bs.take 8))) else .panic

def toInt32 (bs : Bytes) : Res Int :=
  if 4 ≤ bs.length then .ok (toSigned 32 (beUint (bs.take 4))) else .panic

def toInt16 (bs : Bytes) : Res Int :=
  if 2 ≤ bs.length then .ok (toSigned 16 (beUint (bs.take 2))) else .panic

def toInt8 (bs : Bytes) : Res Int :=
  match bs with
  | [] => .panic
  | b :: _ => .ok (toSigned 8 b.val)

def toBool (bs : Bytes) : Res Bool :=
  match bs with
  | [] => .panic
  | b :: _ => .ok (decide (b = 1))

/-- The loop of `toString`: `rest` is `bs[i:]`. -/
def toStringLoop (bs : Bytes) : Bytes → Nat → Bytes × Int
  | [], _ => ([], 0)
  | b :: rest, i => if b = 0 then (bs.take i, (i : Int) + 1) else toStringLoop bs rest (i + 1)

def toString (bs : Bytes) : Bytes × Int :=
  toStringLoop bs bs 0

/-! ## pgtypes.go -/

structure PgType where
  Oid : Int
  ArrayTypeOid : Int
  Typname : String
  Typlen : Int
  Alias : String
  deriving DecidableEq, Repr

def PgUnknownType : PgType :=
  { Oid := 705, ArrayTypeOid := 0, Typname := "unknown", Typlen := -2, Alias := "" }

/-- The map literal `PgTypes`, as the list of its `key: value` entries. -/
def PgTypes : List (Int × PgType) := [
  (16, PgType.mk 16 1000 "bool" 1 ""),
  (17, PgType.mk 17 1001 "bytea" (-1) ""),
  (18, PgType.mk 18 1002 "char" 1 ""),
  (19, PgType.mk 19 1003 "name" 64 ""),
  (20, PgType.mk 20 1016 "int8" 8 "bigint"),
  (21, PgType.mk 21 1005 "int2" 2 "smallint"),
  (22, PgType.mk 22 1006 "int2vector" (-1) ""),
  (23, PgType.mk 23 1007 "int4" 4 "integer"),
  (24, PgType.mk 24 1008 "regproc" 4 ""),
  (25, PgType.mk 25 1009 "text" (-1) ""),
  (26, PgType.mk 26 1028 "oid" 4 ""),
  (27, PgType.mk 27 1010 "tid" 6 ""),
  (28, PgType.mk 28 1011 "xid" 4 ""),
  (29, PgType.mk 29 1012 "cid" 4 ""),
  (30, PgType.mk 30 1013 "oidvector" (-1) ""),
  (114, PgType.mk 114 199 "json" (-1) ""),
  (142, PgType.mk 142 143 "xml" (-1) ""),
  (600, PgType.mk 600 1017 "point" 16 ""),
  (601, PgType.mk 601 1018 "lseg" 32 ""),
  (602, PgType.mk 602 1019 "path" (-1) ""),
  (603, PgType.mk 603 1020 "box" 32 ""),
  (604, PgType.mk 604 1027 "polygon" (-1) ""),
  (628, PgType.mk 628 629 "line" 24 ""),
  (700, PgType.mk 700 1021 "float4" 4 "float"),
  (701, PgType.mk 701 1022 "float8" 8 "double"),
  (718, PgType.mk 718 719 "circle" 24 ""),
  (790, PgType.mk 790 791 "money" 8 ""),
  (829, PgType.mk 829 1040 "macaddr" 6 ""),
  (869, PgType.mk 869 1041 "inet" (-1) ""),
  (650, PgType.mk 650 651 "cidr" (-1) ""),
  (774, PgType.mk 774 775 "macaddr8" 8 ""),
  (1033, PgType.mk 1033 1034 "aclitem" 12 ""),
  (1042, PgType.mk 1042 1014 "bpchar" (-1) ""),
  (1043, PgType.mk 1043 1015 "varchar" (-1) ""),
  (1082, PgType.mk 1082 1182 "date" 4 ""),
  (1083, PgType.mk 1083 1183 "time" 8 ""),
  (1114, PgType.mk 1114 1115 "timestamp" 8 ""),
  (1184, PgType.mk 1184 1185 "timestamptz" 8 "timestamp"),
  (1186, PgType.mk 1186 1187 "interval" 16 ""),
  (1266, PgType.mk 1266 1270 "timetz" 12 "time"),
  (1560, PgType.mk 1560 1561 "bit" (-1) ""),
  (1562, PgType.mk 1562 1563 "varbit" (-1) ""),
  (1700, PgType.mk 1700 1231 "numeric" (-1) "decimal"),
  (1790, PgType.mk 1790 2201 "refcursor" (-1) ""),
  (2202, PgType.mk 2202 2207 "regprocedure" 4 ""),
  (2203, PgType.mk 2203 2208 "regoper" 4 ""),
  (2204, PgType.mk 2204 2209 "regoperator" 4 ""),
  (2205, PgType.mk 2205 2210 "regclass" 4 ""),
  (2206, PgType.mk 2206 2211 "regtype" 4 ""),
  (4096, PgType.mk 4096 4097 "regrole" 4 ""),
  (4089, PgType.mk 4089 4090 "regnamespace" 4 ""),
  (2950, PgType.mk 2950 2951 "uuid" 16 ""),
  (3220, PgType.mk 3220 3221 "pg_lsn" 8 ""),
  (3614, PgType.mk 3614 3643 "tsvector" (-1) ""),
  (3642, PgType.mk 3642 3644 "gtsvector" (-1) ""),
  (3615, PgType.mk 3615 3645 "tsquery" (-1) ""),
  (3734, PgType.mk 3734 3735 "regconfig" 4 ""),
  (3769, PgType.mk 3769 3770 "regdictionary" 4 ""),
  (3802, PgType.mk 3802 3807 "jsonb" (-1) ""),
  (4072, PgType.mk 4072 4073 "jsonpath" (-1) ""),
  (2970, PgType.mk 2970 2949 "txid_snapshot" (-1) ""),
  (3904, PgType.mk 3904 3905 "int4range" (-1) ""),
  (3906, PgType.mk 3906 3907 "numrange" (-1) ""),
  (3908, PgType.mk 3908 3909 "tsrange" (-1) ""),
  (3910, PgType.mk 3910 3911 "tstzrange" (-1) ""),
  (3912, PgType.mk 3912 3913 "daterange" (-1) ""),
  (3926, PgType.mk 3926 3927 "int8range" (-1) ""),
  (2249, PgType.mk 2249 2287 "record" (-1) ""),
  (2275, PgType.mk 2275 1263 "cstring" (-2) ""),
  (13122, PgType.mk 13122 13121 "cardinal_number" 4 ""),
  (13125, PgType.mk 13125 13124 "character_data" (-1) ""),
  (13127, PgType.mk 13127 13126 "sql_identifier" 64 ""),
  (13132, PgType.mk 13132 13131 "time_stamp" 8 ""),
  (13134, PgType.mk 13134 13133 "yes_or_no" (-1) "")
]

/-- The map `PgArrTypes` as `init` fills it: one insertion
`PgArrTypes[v.ArrayTypeOid] = v.Oid` per entry of `PgTypes`; a later
insertion under the same key shadows an earlier one. -/
def PgArrTypes : List (Int × Int) :=
  PgTypes.foldl (fun m kv => (kv.2.ArrayTypeOid, kv.2.Oid) :: m) []

/-- The integrity check of `init`: it panics when a key differs from the
`Oid` of its entry. -/
def initPanics : Bool :=
  PgTypes.any (fun kv => decide (kv.1 ≠ kv.2.Oid))

/-- Map index expression `PgTypes[id]` without the `ok` result: the zero
value for a missing key. -/
def PgTypesAt (id : Int) : PgType :=
  match PgTypes.lookup id with
  | some t => t
  | none => { Oid := 0, ArrayTypeOid := 0, Typname := "", Typlen := 0, Alias := "" }

def GetPgTypeById (oid : Int) : PgType × Bool :=
  match PgTypes.lookup oid with
  | some pgt => (pgt, false)
  | none =>
    match PgArrTypes.lookup oid with
    | some id => (PgTypesAt id, true)
    | none => (PgUnknownType, false)


/-! ## waldatatypes.go -/

/-- The type `WalDataType` is a byte; these are its named constants. -/
abbrev WalDataType := Byte

abbrev BeginWalType : WalDataType := 66  -- 'B'
abbrev CommitWalType : WalDataType := 67  -- 'C'
abbrev Relation : WalDataType := 82  -- 'R'
abbrev Insert : WalDataType := 73  -- 'I'
abbrev Update : WalDataType := 85  -- 'U'
abbrev Delete : WalDataType := 68  -- 'D'
abbrev Truncate : WalDataType := 84  -- 'T'
abbrev Undefined : WalDataType := 45  -- '-'

abbrev sizeOfInt64 : Int := 8
abbrev sizeOfInt32 : Int := 4
abbrev sizeOfInt16 : Int := 2
abbrev sizeOfInt8 : Int := 1
abbrev sizeOfBool : Int := 1
abbrev sizeOfByte : Int := 1

/-- Modelled from the spec: the declaration of the type `LSN` is not among
the sources; the spec describes it as a 64-bit transaction-log position. It
is taken as an unsigned 64-bit integer. -/
abbrev LSN := Nat

/-- Conversion `LSN(x)` of an `int64`. -/
def LSN.ofInt64 (x : Int) : LSN := (x % 2 ^ 64).toNat

/-- Modelled from the spec: the declaration of `XLogData` is not among the
sources; the spec describes a frame as a transaction-log position paired
with the undecoded message bytes. `Parse` reads only `Data`. -/
structure XLogData where
  WALStart : LSN
  Data : Bytes
  deriving DecidableEq, Repr

structure BeginWalData where
  Lsn : LSN
  Timestamp : Int
  XID : Int
  deriving DecidableEq, Repr

structure RelationColumn where
  Flag : Bool
  Modifier : Int
  Name : Bytes
  /-- The field `Type` of the source. -/
  Ty : PgType
  IsArray : Bool
  deriving DecidableEq, Repr

structure RelationWalData where
  ID : Int
  Namespace : Bytes
  RelationName : Bytes
  RelReplIdent : Int
  ColumnsNum : Int
  Columns : List RelationColumn
  deriving DecidableEq, Repr

/-- `fmt.Sprintf("%s.%s", wd.Namespace, wd.RelationName)`. -/
def RelationWalData.FullName (wd : RelationWalData) : Bytes :=
  wd.Namespace ++ [46] ++ wd.RelationName

structure CommitWalData where
  Flags : Int
  LsnCommit : LSN
  LsnTransaction : LSN
  Timestamp : Int
  deriving DecidableEq, Repr

/-- A decoded column value; a nil `Value` is `none`. -/
structure Tuple where
  RelCol : RelationColumn
  Value : Option Bytes
  IsNull : Bool
  IsTOAST : Bool
  deriving DecidableEq, Repr

structure TupleData where
  Tuples : List Tuple
  deriving DecidableEq, Repr

structure InsertWalData where
  RelationId : Int
  Relation : RelationWalData
  Tuples : TupleData
  deriving DecidableEq, Repr

structure UpdateWalData where
  RelationId : Int
  Relation : RelationWalData
  Tuples : TupleData
  deriving DecidableEq, Repr

structure DeleteWalData where
  RelationId : Int
  Relation : RelationWalData
  Tuples : TupleData
  deriving DecidableEq, Repr

structure TruncateWalData where
  Relations : List RelationWalData
  IsCascade : Bool
  IsRestartIdentity : Bool
  deriving DecidableEq, Repr

structure UndefinedWalData where
  data : Bytes
  deriving DecidableEq, Repr

/-- The dynamic values of the interface `Wal` that `Parse` produces. -/
inductive Wal where
  | begin (wd : BeginWalData)
  | commit (wd : CommitWalData)
  | relation (wd : RelationWalData)
  | insert (wd : InsertWalData)
  | update (wd : UpdateWalData)
  | delete (wd : DeleteWalData)
  | truncate (wd : TruncateWalData)
  | undefined (wd : UndefinedWalData)
  deriving DecidableEq, Repr

/-- The container `WalData`; `Value` is `none` when the interface holds no
decoded message (a nil pointer). -/
structure WalData where
  /-- The field `Type` of the source. -/
  Ty : WalDataType
  Value : Option Wal
  deriving DecidableEq, Repr

/-- The loop `for i := int16(0); i < n; i++` of `NewTupleData`, by recursion
on the number `n - i` of iterations left; `tuples` is `td.Tuples`. -/
def tupleLoop (bs : Bytes) (rel : RelationWalData) :
    Nat → Int → Int → List Tuple → Res (List Tuple)
  | 0, _, _, tuples => .ok tuples
  | left + 1, i, offset, tuples => do
    let ty ← index bs offset
    let offset := offset + sizeOfByte
    if ty = 110 then do  -- 'n'
      let col ← index rel.Columns i
      let tuple : Tuple := { RelCol := col, Value := none, IsNull := true, IsTOAST := false }
      tupleLoop bs rel left (i + 1) offset (tuples ++ [tuple])
    else if ty = 117 then do  -- 'u'
      let col ← index rel.Columns i
      let tuple : Tuple := { RelCol := col, Value := none, IsNull := false, IsTOAST := true }
      tupleLoop bs rel left (i + 1) offset (tuples ++ [tuple])
    else if ty = 116 then do  -- 't'
      let length ← (slice bs offset (offset + sizeOfInt32)).bind toInt32
      let offset := offset + sizeOfInt32
      let val ← slice bs offset (offset + length)
      let offset := offset + length
      let col ← index rel.Columns i
      let tuple : Tuple := { RelCol := col, Value := some val, IsNull := false, IsTOAST := false }
      tupleLoop bs rel left (i + 1) offset (tuples ++ [tuple])
    else
      .error .tupleBadFlag

def NewTupleData (bs : Bytes) (rel : RelationWalData) : Res TupleData := do
  let offset : Int := 0
  let n ← (slice bs offset (offset + sizeOfInt16)).bind toInt16
  let offset := offset + sizeOfInt16
  -- td.Tuples = make([]Tuple, 0, n) panics on a negative capacity
  if n < 0 then .panic
  else if n < rel.ColumnsNum then .error (.tupleMismatch n rel.ColumnsNum)
  else do
    let tuples ← tupleLoop bs rel n.toNat 0 offset []
    .ok { Tuples := tuples }

def NewUndefinedWalData (data : Bytes) : Res UndefinedWalData :=
  .ok { data := data }

/-! ## walparser.go -/

/-- The parser state. The map `relations` is a partial function on
relation identifiers. -/
structure WalParser where
  relations : Int → Option RelationWalData
  lastRelation : Option RelationWalData

def NewWalParser : WalParser :=
  { relations := fun _ => none, lastRelation := none }

/-- Map assignment `p.relations[id] = rel`. -/
def WalParser.store (p : WalParser) (id : Int) (rel : RelationWalData) : WalParser :=
  { p with relations := fun k => if k = id then some rel else p.relations k }

def parseBeginWalData (_p : WalParser) (data : Bytes) : Res BeginWalData := do
  let lsn ← (slice data 0 sizeOfInt64).bind toInt64
  let offset := sizeOfInt64
  let timestamp ← (slice data offset (offset + sizeOfInt64)).bind toInt64
  let offset := offset + sizeOfInt64
  let xid ← (slice data offset (offset + sizeOfInt32)).bind toInt32
  .ok { Lsn := LSN.ofInt64 lsn, Timestamp := timestamp, XID := xid }

/-- The loop `for i := int16(0); i < nums; i++` of `parseRelationWalData`,
by recursion on the number `nums - i` of iterations left. -/
def relationLoop (data : Bytes) :
    Nat → Int → List RelationColumn → Res (List RelationColumn)
  | 0, _, columns => .ok columns
  | left + 1, offset, columns => do
    let flag ← (slice data offset (offset + sizeOfBool)).bind toBool
    let offset := offset + sizeOfBool
    let sn := toString (← sliceFrom data offset)
    let colname := sn.1
    let offset := offset + sn.2
    let ty ← (slice data offset (offset + sizeOfInt32)).bind toInt32
    let offset := offset + sizeOfInt32
    let modifier ← (slice data offset (offset + sizeOfInt32)).bind toInt32
    let offset := offset + sizeOfInt32
    let pgty := GetPgTypeById ty
    relationLoop data left offset (columns ++
      [{ Flag := flag, Name := colname, Modifier := modifier, Ty := pgty.1, IsArray := pgty.2 }])

def parseRelationWalData (_p : WalParser) (data : Bytes) : Res RelationWalData := do
  let offset : Int := 0
  let id ← (slice data 0 sizeOfInt32).bind toInt32
  let offset := offset + sizeOfInt32
  let sn := toString (← sliceFrom data offset)
  let namespace_ := sn.1
  let offset := offset + sn.2
  let sn := toString (← sliceFrom data offset)
  let relation := sn.1
  let offset := offset + sn.2
  let relreplident ← (slice data offset (offset + sizeOfInt8)).bind toInt8
  let offset := offset + sizeOfInt8
  let nums ← (slice data offset (offset + sizeOfInt16)).bind toInt16
  let offset := offset + sizeOfInt16
  -- columns := make([]RelationColumn, 0, nums) panics on a negative capacity
  if nums < 0 then .panic
  else do
    let columns ← relationLoop data nums.toNat offset []
    .ok { ID := id, Namespace := namespace_, RelationName := relation,
          RelReplIdent := relreplident, ColumnsNum := nums, Columns := columns }

def parseCommitWalData (_p : WalParser) (data : Bytes) : Res CommitWalData := do
  let offset : Int := sizeOfInt8
  let lsn ← (slice data offset (offset + sizeOfInt64)).bind toInt64
  let offset := offset + sizeOfInt64
  let endLsn ← (slice data offset (offset + sizeOfInt64)).bind toInt64
  let offset := offset + sizeOfInt64
  let timestamp ← (slice data offset (offset + sizeOfInt64)).bind toInt64
  .ok { Flags := 0, LsnCommit := LSN.ofInt64 lsn, LsnTransaction := LSN.ofInt64 endLsn,
        Timestamp := timestamp }

def parseInsertWalData (p : WalParser) (data : Bytes) : Res InsertWalData := do
  let offset : Int := 0
  let relationId ← (slice data offset (offset + sizeOfInt32)).bind toInt32
  let offset := offset + sizeOfInt32
  let ident ← index data offset
  let offset := offset + sizeOfByte
  if ident ≠ 78 then .error (.insertBadFlag ident)  -- 'N'
  else
    match p.relations relationId with
    | none => .error (.relationNotFound relationId)
    | some rel => do
      let td ← (sliceFrom data offset).bind (fun bs => NewTupleData bs rel)
      .ok { RelationId := relationId, Relation := rel, Tuples := td }

def parseUpdateWalData (p : WalParser) (data : Bytes) : Res UpdateWalData := do
  let offset : Int := 0
  let relationId ← (slice data offset (offset + sizeOfInt32)).bind toInt32
  let offset := offset + sizeOfInt32
  let ident ← index data offset
  let offset := offset + sizeOfByte
  match p.relations relationId with
  | none => .error (.relationNotFound relationId)
  | some rel =>
    if ident = 75 then .error .updateUnsupportedK  -- 'K'
    else if ident = 79 then .error .updateUnsupportedO  -- 'O'
    else if ident = 78 then do  -- 'N'
      let td ← (sliceFrom data offset).bind (fun bs => NewTupleData bs rel)
      .ok { RelationId := relationId, Relation := rel, Tuples := td }
    else .error .updateBadFlag

def parseDeleteWalData (p : WalParser) (data : Bytes) : Res DeleteWalData := do
  let offset : Int := 0
  let relationId ← (slice data offset (offset + sizeOfInt32)).bind toInt32
  let offset := offset + sizeOfInt32
  let ident ← index data offset
  let offset := offset + sizeOfByte
  if ident ≠ 75 ∧ ident ≠ 79 then .error (.deleteBadFlag ident)  -- 'K', 'O'
  else
    match p.relations relationId with
    | none => .error (.relationNotFound relationId)
    | some rel => do
      let td ← (sliceFrom data offset).bind (fun bs => NewTupleData bs rel)
      .ok { RelationId := relationId, Relation := rel, Tuples := td }

/-- The loop `for i:=int32(0); i < n; i++` of `parseTruncateWalData`, by
recursion on the number `n - i` of iterations left. -/
def truncateLoop (p : WalParser) (data : Bytes) :
    Nat → Int → List RelationWalData → Res (List RelationWalData)
  | 0, _, relations => .ok relations
  | left + 1, offset, relations => do
    let id ← (slice data offset (offset + sizeOfInt32)).bind toInt32
    let offset := offset + sizeOfInt32
    match p.relations id with
    | none => .error (.relationNotFound id)
    | some rel => truncateLoop p data left offset (relations ++ [rel])

def parseTruncateWalData (p : WalParser) (data : Bytes) : Res TruncateWalData := do
  let offset : Int := 0
  let n ← (slice data offset (offset + sizeOfInt32)).bind toInt32
  let offset := offset + sizeOfInt32
  let flag ← index data offset
  let isCascade := decide (flag = 1)
  let isRestartIdentity := decide (flag = 2)
  let offset := offset + sizeOfInt8
  let rest ← sliceFrom data offset
  if (rest.length : Int) ≠ n * sizeOfInt32 then .error .truncateBadFormat
  -- truncate.Relations = make([]RelationWalData, 0, n) panics on a negative capacity
  else if n < 0 then .panic
  else do
    let relations ← truncateLoop p data n.toNat offset []
    .ok { Relations := relations, IsCascade := isCascade,
          IsRestartIdentity := isRestartIdentity }

/-- Outcome of `Parse`: it returns the container, the error (`none` for
nil) and leaves the parser in a new state, or it panics. -/
inductive ParseResult where
  | returned (wd : WalData) (err : Option Err) (p : WalParser)
  | panic

/-- The assignment `wd, err = p.parseX(payload)` followed by the final
`return &WalData{Type: ty, Value: wd}, err`. -/
def finish {α : Type} (p : WalParser) (ty : WalDataType) (wrap : α → Wal) :
    Res α → ParseResult
  | .ok v => .returned { Ty := ty, Value := some (wrap v) } none p
  | .error e => .returned { Ty := ty, Value := none } (some e) p
  | .panic => .panic

def Parse (p : WalParser) (xlog : XLogData) : ParseResult :=
  let ty := Undefined
  -- payload := xlog.Data[1:] panics on an empty frame
  match xlog.Data with
  | [] => .panic
  | tag :: payload =>
    if tag = BeginWalType then finish p ty Wal.begin (parseBeginWalData p payload)
    else if tag = CommitWalType then finish p ty Wal.commit (parseCommitWalData p payload)
    else if tag = Insert then finish p ty Wal.insert (parseInsertWalData p payload)
    else if tag = Update then finish p ty Wal.update (parseUpdateWalData p payload)
    else if tag = Delete then finish p ty Wal.delete (parseDeleteWalData p payload)
    else if tag = Truncate then finish p ty Wal.truncate (parseTruncateWalData p payload)
    else if tag = Relation then
      -- `relation, err := ...` declares a new `err`; the outer one stays nil
      match parseRelationWalData p payload with
      | .ok relation =>
        .returned { Ty := ty, Value := some (Wal.relation relation) } none
          (p.store relation.ID relation)
      | .error _ => .returned { Ty := ty, Value := none } none p
      | .panic => .panic
    else finish p ty Wal.undefined (NewUndefinedWalData xlog.Data)

/-- A call of `Parse` succeeds when it returns with a nil error. -/
def ParseResult.succeeds : ParseResult → Bool
  | .returned _ none _ => true
  | _ => false

/-! ## Wire encodings

The encoders below are the layouts of the specification; the theorems feed
their output to the decoders above. -/

/-- The `k` low-order base-256 digits of `n`, most significant first. -/
def beNat : Nat → Nat → Bytes
  | 0, _ => []
  | k + 1, n => beNat k (n / 256) ++ [⟨n % 256, Nat.mod_lt _ (by decide)⟩]

/-- Big-endian two's-complement encoding of an integer on 2 bytes. -/
def be16 (x : Int) : Bytes := beNat 2 (x % 2 ^ 16).toNat

/-- Big-endian two's-complement encoding of an integer on 4 bytes. -/
def be32 (x : Int) : Bytes := beNat 4 (x % 2 ^ 32).toNat

/-- The range of Go's `int32`. -/
def IsInt32 (x : Int) : Prop := -2 ^ 31 ≤ x ∧ x < 2 ^ 31

instance (x : Int) : Decidable (IsInt32 x) := by unfold IsInt32; infer_instance

/-- The bytes of an ASCII text. -/
def str (s : String) : Bytes := s.toList.map (fun c => Fin.ofNat c.toNat)

/-- One field of a TupleData on the wire. -/
inductive Field where
  /-- tag `n` -/
  | null
  /-- tag `u` -/
  | toast
  /-- tag `t`, a 4-byte length and the value bytes -/
  | text (v : Bytes)
  deriving DecidableEq, Repr

def Field.encode : Field → Bytes
  | .null => [110]
  | .toast => [117]
  | .text v => [116] ++ be32 v.length ++ v

/-- A field is well formed when its length fits the signed 4-byte prefix. -/
def Field.WF : Field → Prop
  | .text v => v.length < 2 ^ 31
  | _ => True

instance (f : Field) : Decidable f.WF := by cases f <;> unfold Field.WF <;> infer_instance

/-- The raw value of a field: absent for `n` and `u`. -/
def Field.value : Field → Option Bytes
  | .text v => some v
  | _ => none

/-- The Tuple the specification assigns to a field of column `col`. -/
def Field.toTuple (col : RelationColumn) : Field → Tuple
  | .null => { RelCol := col, Value := none, IsNull := true, IsTOAST := false }
  | .toast => { RelCol := col, Value := none, IsNull := false, IsTOAST := true }
  | .text v => { RelCol := col, Value := some v, IsNull := false, IsTOAST := false }

def encodeFields (fields : List Field) : Bytes :=
  (fields.map Field.encode).flatten

/-- TupleData on the wire: a 2-byte count, then the fields. -/
def encodeTupleData (fields : List Field) : Bytes :=
  be16 fields.length ++ encodeFields fields

/-- The Tuple Row of `fields` under the columns `cols`, position by position. -/
def tupleRow (cols : List RelationColumn) (fields : List Field) : TupleData :=
  { Tuples := List.zipWith Field.toTuple cols fields }

/-- A relation descriptor whose declared count is the length of its column list. -/
def RelationWalData.Consistent (rel : RelationWalData) : Prop :=
  rel.ColumnsNum = (rel.Columns.length : Int)

instance (rel : RelationWalData) : Decidable rel.Consistent := by
  unfold RelationWalData.Consistent; infer_instance

/-- Big-endian two's-complement encoding of an integer on 8 bytes. -/
def be64 (x : Int) : Bytes := beNat 8 (x % 2 ^ 64).toNat

/-- The range of Go's `int64`. -/
def IsInt64 (x : Int) : Prop := -2 ^ 63 ≤ x ∧ x < 2 ^ 63

instance (x : Int) : Decidable (IsInt64 x) := by unfold IsInt64; infer_instance

/-- The signed value of an 8-byte big-endian field. -/
def int64Of (bs : Bytes) : Int := toSigned 64 (beUint bs)

/-- The signed value of a 4-byte big-endian field. -/
def int32Of (bs : Bytes) : Int := toSigned 32 (beUint bs)

/-- Successive calls of `Parse` on a sequence of frames, each on the state
left by the previous one; `none` when a call panics. -/
def parseFrames (p : WalParser) : List XLogData → Option WalParser
  | [] => some p
  | x :: xs =>
    match Parse p x with
    | .returned _ _ p' => parseFrames p' xs
    | .panic => none

/-- The reference definition of the NUL-terminated string decoder: with `i`
the index of the first zero byte, the text `bs[0..i)` and the count `i + 1`;
the empty text and the count 0 when there is no zero byte. -/
def toStringSpec (bs : Bytes) : Bytes × Int :=
  if (0 : Byte) ∈ bs then (bs.take (bs.indexOf 0), (bs.indexOf 0 : Int) + 1) else ([], 0)

/-- One column of a Relation body on the wire: the flag (0 or 1), the name,
the type oid and the type modifier. -/
structure ColumnWire where
  flag : Bool
  name : Bytes
  oid : Int
  modifier : Int
  deriving DecidableEq, Repr

def ColumnWire.encode (c : ColumnWire) : Bytes :=
  [if c.flag then 1 else 0] ++ c.name ++ [0] ++ be32 c.oid ++ be32 c.modifier

/-- A column is well formed when its name has no zero byte and its oid and
modifier are `int32` values. -/
def ColumnWire.WF (c : ColumnWire) : Prop :=
  (0 : Byte) ∉ c.name ∧ IsInt32 c.oid ∧ IsInt32 c.modifier

instance (c : ColumnWire) : Decidable c.WF := by unfold ColumnWire.WF; infer_instance

/-- The Column Descriptor the specification assigns to a wire column: the
type oid is resolved through the catalog. -/
def ColumnWire.toColumn (c : ColumnWire) : RelationColumn :=
  { Flag := c.flag, Modifier := c.modifier, Name := c.name,
    Ty := (GetPgTypeById c.oid).1, IsArray := (GetPgTypeById c.oid).2 }

def encodeColumns (cols : List ColumnWire) : Bytes :=
  (cols.map ColumnWire.encode).flatten

/-- Relation body on the wire: id(4) · namespace · 0 · name · 0 ·
replica-identity(1) · count(2) · columns. -/
def encodeRelation (id : Int) (ns name : Bytes) (repl : Byte) (cols : List ColumnWire) :
    Bytes :=
  be32 id ++ ns ++ [0] ++ name ++ [0] ++ [repl] ++ be16 cols.length ++ encodeColumns cols

/-- The invariant of the relation cache: every entry is stored under its
own identifier, its declared count is not negative and is the length of its
column list. -/
def CacheInvariant (p : WalParser) : Prop :=
  ∀ (k : Int) (r : RelationWalData), p.relations k = some r →
    r.ID = k ∧ 0 ≤ r.ColumnsNum ∧ (r.Columns.length : Int) = r.ColumnsNum

/-! ## The example of the specification -/

/-- Body of the Relation message of `public.accounts` (identifier 16385)
with the columns `id` (oid 23) and `balance` (oid 1700). -/
def accountsBody : Bytes :=
  be32 16385 ++ str "public" ++ [0] ++ str "accounts" ++ [0] ++ [100] ++ be16 2 ++
    ([1] ++ str "id" ++ [0] ++ be32 23 ++ be32 (-1)) ++
    ([0] ++ str "balance" ++ [0] ++ be32 1700 ++ be32 (-1))

/-- The descriptor that `accountsBody` decodes to. -/
def accountsRelation : RelationWalData :=
  { ID := 16385, Namespace := str "public", RelationName := str "accounts",
    RelReplIdent := 100, ColumnsNum := 2,
    Columns := [
      { Flag := true, Modifier := -1, Name := str "id",
        Ty := PgType.mk 23 1007 "int4" 4 "integer", IsArray := false },
      { Flag := false, Modifier := -1, Name := str "balance",
        Ty := PgType.mk 1700 1231 "numeric" (-1) "decimal", IsArray := false }] }

/-- An earlier schema of the same table, with the single column `id`. -/
def accountsBodyOld : Bytes :=
  be32 16385 ++ str "public" ++ [0] ++ str "accounts" ++ [0] ++ [100] ++ be16 1 ++
    ([1] ++ str "id" ++ [0] ++ be32 23 ++ be32 (-1))

def accountsRelationOld : RelationWalData :=
  { ID := 16385, Namespace := str "public", RelationName := str "accounts",
    RelReplIdent := 100, ColumnsNum := 1,
    Columns := [
      { Flag := true, Modifier := -1, Name := str "id",
        Ty := PgType.mk 23 1007 "int4" 4 "integer", IsArray := false }] }

/-- The row of the example: two `t` fields holding `1` and `9.5`. -/
def accountsRow : List Field := [.text (str "1"), .text (str "9.5")]

/-! ## Basic lemmas -/

@[simp] theorem Res.bind_eq {α β : Type} (x : Res α) (f : α → Res β) :
    (x >>= f) = x.bind f := rfl

@[simp] theorem Res.pure_eq {α : Type} (a : α) : (pure a : Res α) = .ok a := rfl

@[simp] theorem Res.ok_bind {α β : Type} (a : α) (f : α → Res β) :
    (Res.ok a).bind f = f a := rfl

@[simp] theorem Res.error_bind {α β : Type} (e : Err) (f : α → Res β) :
    (Res.error e : Res α).bind f = .error e := rfl

@[simp] theorem Res.panic_bind {α β : Type} (f : α → Res β) :
    (Res.panic : Res α).bind f = .panic := rfl

theorem slice_mid (pre mid post : Bytes) (lo hi : Int)
    (hlo : lo = pre.length) (hhi : hi = lo + mid.length) :
    slice (pre ++ mid ++ post) lo hi = .ok mid := by
  subst hlo hhi
  have h1 : ((pre.length : Int) + mid.length - pre.length).toNat = mid.length := by omega
  simp [slice, h1]

theorem slice_head (mid post : Bytes) (hi : Int) (hhi : hi = mid.length) :
    slice (mid ++ post) 0 hi = .ok mid := by
  have := slice_mid [] mid post 0 hi (by simp) (by simp [hhi])
  simpa using this

theorem sliceFrom_append (pre post : Bytes) (lo : Int) (hlo : lo = pre.length) :
    sliceFrom (pre ++ post) lo = .ok post := by
  subst hlo
  simp [sliceFrom]

theorem index_append {α : Type} (pre : List α) (x : α) (post : List α) (i : Int)
    (hi : i = pre.length) : index (pre ++ x :: post) i = .ok x := by
  subst hi
  simp [index, List.getElem_append_right]

theorem length_beNat (k n : Nat) : (beNat k n).length = k := by
  induction k generalizing n with
  | zero => rfl
  | succ k ih => simp [beNat, ih]

theorem beUint_append (a : Bytes) (b : Byte) : beUint (a ++ [b]) = beUint a * 256 + b.val := by
  simp [beUint, List.foldl_append]

theorem beUint_beNat (k n : Nat) : beUint (beNat k n) = n % 256 ^ k := by
  induction k generalizing n with
  | zero => simp [beNat, beUint, Nat.mod_one]
  | succ k ih =>
    rw [beNat, beUint_append, ih]
    simp only []
    rw [Nat.pow_succ', Nat.mod_mul]
    omega

@[simp] theorem length_be32 (x : Int) : (be32 x).length = 4 := length_beNat _ _

@[simp] theorem length_be16 (x : Int) : (be16 x).length = 2 := length_beNat _ _

theorem toInt32_be32 (x : Int) (hx : IsInt32 x) : toInt32 (be32 x) = .ok x := by
  have hlen := length_be32 x
  unfold toInt32
  rw [if_pos (by omega), List.take_of_length_le (by omega)]
  unfold be32
  rw [beUint_beNat]
  unfold IsInt32 at hx
  simp only [toSigned]
  norm_num
  split <;> omega

theorem toInt16_be16 (x : Int) (hx : -2 ^ 15 ≤ x ∧ x < 2 ^ 15) : toInt16 (be16 x) = .ok x := by
  have hlen := length_be16 x
  unfold toInt16
  rw [if_pos (by omega), List.take_of_length_le (by omega)]
  unfold be16
  rw [beUint_beNat]
  simp only [toSigned]
  norm_num
  split <;> omega
theorem hdr_id (id : Int) (rest : Bytes) (h : IsInt32 id) (hi : Int) (hhi : hi = 4) :
    (slice (be32 id ++ rest) 0 hi).bind toInt32 = .ok id := by
  rw [slice_head _ _ _ (by simp [hhi]), Res.ok_bind, toInt32_be32 _ h]

theorem hdr_tag (id : Int) (tag : Byte) (rest : Bytes) (i : Int) (hi : i = 4) :
    index (be32 id ++ tag :: rest) i = .ok tag :=
  index_append _ _ _ _ (by simp [hi])

theorem hdr_rest (id : Int) (tag : Byte) (rest : Bytes) (i : Int) (hi : i = 5) :
    sliceFrom (be32 id ++ tag :: rest) i = .ok rest := by
  have := sliceFrom_append (be32 id ++ [tag]) rest i (by simp [hi])
  simpa using this

theorem slice_of_eq (bs pre mid post : Bytes) (h : bs = pre ++ mid ++ post) (lo hi : Int)
    (hlo : lo = pre.length) (hhi : hi = lo + mid.length) : slice bs lo hi = .ok mid := by
  subst h; exact slice_mid _ _ _ _ _ hlo hhi

theorem index_of_eq {α : Type} (xs pre : List α) (x : α) (post : List α)
    (h : xs = pre ++ x :: post) (i : Int) (hi : i = pre.length) : index xs i = .ok x := by
  subst h; exact index_append _ _ _ _ hi

theorem index_length {α : Type} (xs : List α) (i : Int) (hi : i = xs.length) :
    index xs i = .panic := by
  subst hi
  simp [index]

theorem encodeFields_cons (f : Field) (fs : List Field) :
    encodeFields (f :: fs) = f.encode ++ encodeFields fs := by
  simp [encodeFields]

/-- The loop of `NewTupleData` on well-formed fields followed by `k` more
iterations: every field yields the Tuple of its column as long as columns
are left, and the loop panics at the first field beyond the last column. -/
theorem tupleLoop_fields_then (rel : RelationWalData) (k : Nat) (fields : List Field)
    (hwf : ∀ f ∈ fields, f.WF) :
    ∀ (bs pre post : Bytes) (done cols : List RelationColumn) (i offset i' offset' : Int)
      (acc : List Tuple),
      bs = pre ++ encodeFields fields ++ post → rel.Columns = done ++ cols →
      i = done.length → offset = pre.length →
      i' = i + fields.length → offset' = offset + (encodeFields fields).length →
      tupleLoop bs rel (fields.length + k) i offset acc
        = if fields.length ≤ cols.length then
            tupleLoop bs rel k i' offset' (acc ++ List.zipWith Field.toTuple cols fields)
          else .panic := by
  induction fields with
  | nil =>
    intro bs pre post done cols i offset i' offset' acc _ _ _ _ hi' hoff'
    simp [encodeFields] at hi' hoff'
    simp [hi', hoff']
  | cons f fs ih =>
    intro bs pre post done cols i offset i' offset' acc hbs hcols hi hoff hi' hoff'
    have hwf' : ∀ g ∈ fs, g.WF := fun g hg => hwf g (List.mem_cons_of_mem _ hg)
    have hfuel : (f :: fs).length + k = (fs.length + k) + 1 := by
      simp only [List.length_cons]; omega
    rw [encodeFields_cons] at hbs hoff'
    rw [hfuel]
    cases cols with
    | nil =>
      have hcol : index rel.Columns i = .panic :=
        index_length _ _ (by simp [hcols, hi])
      cases f with
      | null =>
        have htag : index bs offset = .ok 110 :=
          index_of_eq bs pre 110 (encodeFields fs ++ post) (by simp [hbs, Field.encode]) _ hoff
        simp [tupleLoop, htag, hcol]
      | toast =>
        have htag : index bs offset = .ok 117 :=
          index_of_eq bs pre 117 (encodeFields fs ++ post) (by simp [hbs, Field.encode]) _ hoff
        simp [tupleLoop, htag, hcol]
      | text v =>
        have hv : v.length < 2 ^ 31 := hwf (.text v) (List.mem_cons_self _ _)
        have htag : index bs offset = .ok 116 :=
          index_of_eq bs pre 116 (be32 v.length ++ v ++ encodeFields fs ++ post)
            (by simp [hbs, Field.encode]) _ hoff
        have hlenb : slice bs (offset + 1) (offset + 1 + 4) = .ok (be32 v.length) :=
          slice_of_eq bs (pre ++ [116]) (be32 v.length) (v ++ encodeFields fs ++ post)
            (by simp [hbs, Field.encode]) _ _ (by simp [hoff]) (by simp)
        have hdec : toInt32 (be32 v.length) = .ok (v.length : Int) :=
          toInt32_be32 _ (by unfold IsInt32; omega)
        have hval : slice bs (offset + 1 + 4) (offset + 1 + 4 + v.length) = .ok v :=
          slice_of_eq bs (pre ++ [116] ++ be32 v.length) v (encodeFields fs ++ post)
            (by simp [hbs, Field.encode]) _ _ (by simp [hoff]; omega) (by simp)
        simp [tupleLoop, htag, hcol, hlenb, hdec, hval]
    | cons c cs =>
      have hcol : index rel.Columns i = .ok c := index_of_eq _ _ _ _ hcols _ hi
      have hcols' : rel.Columns = (done ++ [c]) ++ cs := by simp [hcols]
      have hi1 : i + 1 = ((done ++ [c]).length : Int) := by simp [hi]
      have hi2 : i' = i + 1 + fs.length := by simp [hi']; omega
      cases f with
      | null =>
        have htag : index bs offset = .ok 110 :=
          index_of_eq bs pre 110 (encodeFields fs ++ post) (by simp [hbs, Field.encode]) _ hoff
        have hrec := ih hwf' bs (pre ++ [110]) post (done ++ [c]) cs (i + 1) (offset + 1)
          i' offset' (acc ++ [Field.toTuple c .null]) (by simp [hbs, Field.encode]) hcols' hi1
          (by simp [hoff]) hi2 (by simp [hoff', Field.encode]; omega)
        simp only [tupleLoop, Res.bind_eq, htag, Res.ok_bind, hcol, sizeOfByte, if_true]
        simpa [Field.toTuple] using hrec
      | toast =>
        have htag : index bs offset = .ok 117 :=
          index_of_eq bs pre 117 (encodeFields fs ++ post) (by simp [hbs, Field.encode]) _ hoff
        have hrec := ih hwf' bs (pre ++ [117]) post (done ++ [c]) cs (i + 1) (offset + 1)
          i' offset' (acc ++ [Field.toTuple c .toast]) (by simp [hbs, Field.encode]) hcols' hi1
          (by simp [hoff]) hi2 (by simp [hoff', Field.encode]; omega)
        simp only [tupleLoop, Res.bind_eq, htag, Res.ok_bind, hcol, sizeOfByte]
        simpa [Field.toTuple] using hrec
      | text v =>
        have hv : v.length < 2 ^ 31 := hwf (.text v) (List.mem_cons_self _ _)
        have htag : index bs offset = .ok 116 :=
          index_of_eq bs pre 116 (be32 v.length ++ v ++ encodeFields fs ++ post)
            (by simp [hbs, Field.encode]) _ hoff
        have hlenb : slice bs (offset + 1) (offset + 1 + 4) = .ok (be32 v.length) :=
          slice_of_eq bs (pre ++ [116]) (be32 v.length) (v ++ encodeFields fs ++ post)
            (by simp [hbs, Field.encode]) _ _ (by simp [hoff]) (by simp)
        have hdec : toInt32 (be32 v.length) = .ok (v.length : Int) :=
          toInt32_be32 _ (by unfold IsInt32; omega)
        have hval : slice bs (offset + 1 + 4) (offset + 1 + 4 + v.length) = .ok v :=
          slice_of_eq bs (pre ++ [116] ++ be32 v.length) v (encodeFields fs ++ post)
            (by simp [hbs, Field.encode]) _ _ (by simp [hoff]; omega) (by simp)
        have hrec := ih hwf' bs (pre ++ [116] ++ be32 v.length ++ v) post (done ++ [c]) cs
          (i + 1) (offset + 1 + 4 + v.length) i' offset'
          (acc ++ [Field.toTuple c (.text v)]) (by simp [hbs, Field.encode]) hcols' hi1
          (by simp [hoff]; omega) hi2 (by simp [hoff', Field.encode]; omega)
        simp only [tupleLoop, Res.bind_eq, htag, Res.ok_bind, hcol,
          sizeOfByte, sizeOfInt32, hlenb, hdec, hval]
        simpa [Field.toTuple] using hrec

/-- The loop of `NewTupleData` on exactly the well-formed fields. -/
theorem tupleLoop_fields (rel : RelationWalData) (fields : List Field)
    (hwf : ∀ f ∈ fields, f.WF) (bs pre post : Bytes) (done cols : List RelationColumn)
    (i offset : Int) (acc : List Tuple)
    (hbs : bs = pre ++ encodeFields fields ++ post) (hcols : rel.Columns = done ++ cols)
    (hi : i = done.length) (hoff : offset = pre.length) :
    tupleLoop bs rel fields.length i offset acc
      = if fields.length ≤ cols.length then
          .ok (acc ++ List.zipWith Field.toTuple cols fields)
        else .panic := by
  have := tupleLoop_fields_then rel 0 fields hwf bs pre post done cols i offset _ _ acc
    hbs hcols hi hoff rfl rfl
  simpa [tupleLoop] using this

/-- The value of `NewTupleData` on a well-formed TupleData whose count is at
least the declared count of the relation. -/
theorem NewTupleData_encode (rel : RelationWalData) (fields : List Field) (post : Bytes)
    (hwf : ∀ f ∈ fields, f.WF) (hn : fields.length < 2 ^ 15)
    (hge : rel.ColumnsNum ≤ fields.length) :
    NewTupleData (encodeTupleData fields ++ post) rel
      = if fields.length ≤ rel.Columns.length then .ok (tupleRow rel.Columns fields)
        else .panic := by
  have hcount : (slice (encodeTupleData fields ++ post) 0 (0 + sizeOfInt16)).bind toInt16
      = .ok (fields.length : Int) := by
    rw [slice_of_eq _ [] (be16 fields.length) (encodeFields fields ++ post)
      (by simp [encodeTupleData]) _ _ (by simp) (by simp)]
    exact toInt16_be16 _ (by omega)
  have hloop := tupleLoop_fields rel fields hwf (encodeTupleData fields ++ post)
    (be16 fields.length) post [] rel.Columns 0 (0 + sizeOfInt16) []
    (by simp [encodeTupleData]) (by simp) (by simp) (by simp)
  simp only [NewTupleData, Res.bind_eq, hcount, Res.ok_bind]
  rw [if_neg (by omega), if_neg (by omega)]
  simp only [Int.toNat_ofNat, hloop]
  split <;> simp [tupleRow]
theorem length_flatten_be32 (ids : List Int) : ((ids.map be32).flatten).length = 4 * ids.length := by
  induction ids with
  | nil => rfl
  | cons x xs ih => simp [ih]; omega

/-- The loop of `parseTruncateWalData` over well-formed identifiers: it stops
with an error at the first identifier missing from the cache, and otherwise
collects the cached descriptors in order. -/
theorem truncateLoop_ids (p : WalParser) (ids : List Int) (hids : ∀ x ∈ ids, IsInt32 x) :
    ∀ (bs pre : Bytes) (offset : Int) (acc : List RelationWalData),
      bs = pre ++ (ids.map be32).flatten → offset = pre.length →
      truncateLoop p bs ids.length offset acc
        = match ids.find? (fun x => (p.relations x).isNone) with
          | some m => .error (.relationNotFound m)
          | none => .ok (acc ++ ids.filterMap p.relations) := by
  induction ids with
  | nil => intros; simp [truncateLoop]
  | cons x xs ih =>
    intro bs pre offset acc hbs hoff
    have hx : IsInt32 x := hids x (List.mem_cons_self _ _)
    have hxs : ∀ y ∈ xs, IsInt32 y := fun y hy => hids y (List.mem_cons_of_mem _ hy)
    have hread : (slice bs offset (offset + sizeOfInt32)).bind toInt32 = .ok x := by
      rw [slice_of_eq bs pre (be32 x) ((xs.map be32).flatten) (by simp [hbs]) _ _ hoff (by simp)]
      exact toInt32_be32 _ hx
    have hrec := ih hxs bs (pre ++ be32 x) (offset + sizeOfInt32)
    simp only [List.length_cons, truncateLoop, Res.bind_eq, hread, Res.ok_bind]
    cases hrel : p.relations x with
    | none => simp [hrel]
    | some rel =>
      dsimp only
      rw [hrec (acc ++ [rel]) (by simp [hbs]) (by simp [hoff])]
      simp [hrel, List.filterMap_cons]

/-- The value of `parseTruncateWalData` on a body whose count matches its
identifier list. -/
theorem parseTruncateWalData_ids (p : WalParser) (opt : Byte) (ids : List Int)
    (hids : ∀ x ∈ ids, IsInt32 x) (hlen : ids.length < 2 ^ 31) :
    parseTruncateWalData p (be32 ids.length ++ opt :: (ids.map be32).flatten)
      = match ids.find? (fun x => (p.relations x).isNone) with
        | some m => .error (.relationNotFound m)
        | none => .ok { Relations := ids.filterMap p.relations, IsCascade := decide (opt = 1),
                        IsRestartIdentity := decide (opt = 2) } := by
  have hloop := truncateLoop_ids p ids hids
    (be32 ids.length ++ opt :: (ids.map be32).flatten) (be32 ids.length ++ [opt])
    (0 + sizeOfInt32 + sizeOfInt8) [] (by simp) (by simp; rfl)
  have hl : (((ids.map be32).flatten).length : Int) = ids.length * sizeOfInt32 := by
    rw [length_flatten_be32]; push_cast; simp only [sizeOfInt32]; ring
  have hnn : ¬ ((ids.length : Int) < 0) := by omega
  simp only [parseTruncateWalData, Res.bind_eq]
  rw [hdr_id _ _ (by unfold IsInt32; omega) _ (by simp)]
  simp only [Res.ok_bind, hdr_tag _ _ _ _ (show (0 : Int) + sizeOfInt32 = 4 by rfl),
    hdr_rest _ _ _ _ (show (0 : Int) + sizeOfInt32 + sizeOfInt8 = 5 by rfl)]
  rw [if_neg (by rw [hl]; simp), if_neg hnn]
  simp only [Int.toNat_ofNat, hloop]
  split <;> simp
/-! ## Row frames with a well-formed header -/

theorem parseInsertWalData_frame (p : WalParser) (id : Int) (hid : IsInt32 id) (tag : Byte)
    (td : Bytes) :
    parseInsertWalData p (be32 id ++ tag :: td)
      = if tag ≠ 78 then .error (.insertBadFlag tag)
        else match p.relations id with
          | none => .error (.relationNotFound id)
          | some rel => (NewTupleData td rel).bind
              (fun t => .ok { RelationId := id, Relation := rel, Tuples := t }) := by
  simp only [parseInsertWalData, Res.bind_eq]
  rw [hdr_id _ _ hid _ (by simp)]
  simp only [Res.ok_bind, hdr_tag _ _ _ _ (show (0 : Int) + sizeOfInt32 = 4 by rfl),
    hdr_rest _ _ _ _ (show (0 : Int) + sizeOfInt32 + sizeOfByte = 5 by rfl)]

theorem parseUpdateWalData_frame (p : WalParser) (id : Int) (hid : IsInt32 id) (tag : Byte)
    (td : Bytes) :
    parseUpdateWalData p (be32 id ++ tag :: td)
      = match p.relations id with
        | none => .error (.relationNotFound id)
        | some rel =>
          if tag = 75 then .error .updateUnsupportedK
          else if tag = 79 then .error .updateUnsupportedO
          else if tag = 78 then (NewTupleData td rel).bind
              (fun t => .ok { RelationId := id, Relation := rel, Tuples := t })
          else .error .updateBadFlag := by
  simp only [parseUpdateWalData, Res.bind_eq]
  rw [hdr_id _ _ hid _ (by simp)]
  simp only [Res.ok_bind, hdr_tag _ _ _ _ (show (0 : Int) + sizeOfInt32 = 4 by rfl),
    hdr_rest _ _ _ _ (show (0 : Int) + sizeOfInt32 + sizeOfByte = 5 by rfl)]

theorem parseDeleteWalData_frame (p : WalParser) (id : Int) (hid : IsInt32 id) (tag : Byte)
    (td : Bytes) :
    parseDeleteWalData p (be32 id ++ tag :: td)
      = if tag ≠ 75 ∧ tag ≠ 79 then .error (.deleteBadFlag tag)
        else match p.relations id with
          | none => .error (.relationNotFound id)
          | some rel => (NewTupleData td rel).bind
              (fun t => .ok { RelationId := id, Relation := rel, Tuples := t }) := by
  simp only [parseDeleteWalData, Res.bind_eq]
  rw [hdr_id _ _ hid _ (by simp)]
  simp only [Res.ok_bind, hdr_tag _ _ _ _ (show (0 : Int) + sizeOfInt32 = 4 by rfl),
    hdr_rest _ _ _ _ (show (0 : Int) + sizeOfInt32 + sizeOfByte = 5 by rfl)]

theorem Parse_insert (p : WalParser) (lsn : LSN) (payload : Bytes) :
    Parse p ⟨lsn, Insert :: payload⟩
      = finish p Undefined Wal.insert (parseInsertWalData p payload) := rfl

theorem Parse_update (p : WalParser) (lsn : LSN) (payload : Bytes) :
    Parse p ⟨lsn, Update :: payload⟩
      = finish p Undefined Wal.update (parseUpdateWalData p payload) := rfl

theorem Parse_delete (p : WalParser) (lsn : LSN) (payload : Bytes) :
    Parse p ⟨lsn, Delete :: payload⟩
      = finish p Undefined Wal.delete (parseDeleteWalData p payload) := rfl

theorem Parse_truncate (p : WalParser) (lsn : LSN) (payload : Bytes) :
    Parse p ⟨lsn, Truncate :: payload⟩
      = finish p Undefined Wal.truncate (parseTruncateWalData p payload) := rfl

theorem Parse_relation (p : WalParser) (lsn : LSN) (payload : Bytes) :
    Parse p ⟨lsn, Relation :: payload⟩
      = match parseRelationWalData p payload with
        | .ok relation =>
          .returned { Ty := Undefined, Value := some (Wal.relation relation) } none
            (p.store relation.ID relation)
        | .error _ => .returned { Ty := Undefined, Value := none } none p
        | .panic => .panic := rfl

theorem Res.bind_eq_ok {α β : Type} (x : Res α) (f : α → Res β) (b : β) :
    x.bind f = .ok b ↔ ∃ a, x = .ok a ∧ f a = .ok b := by
  cases x <;> simp [Res.bind]

theorem toSigned_range (w u : Nat) (hw : 0 < w) :
    -(2 : Int) ^ (w - 1) ≤ toSigned w u ∧ toSigned w u < (2 : Int) ^ (w - 1) := by
  have hpow : (2 : Nat) ^ w = 2 * 2 ^ (w - 1) := by
    cases w with
    | zero => omega
    | succ n => simp [pow_succ, Nat.mul_comm]
  have hlt : u % 2 ^ w < 2 ^ w := Nat.mod_lt _ (by positivity)
  have hcast : ((2 : Int) ^ (w - 1)) = (((2 : Nat) ^ (w - 1) : Nat) : Int) := by push_cast; rfl
  rw [hcast]
  unfold toSigned
  split <;> constructor <;> omega

theorem toInt32_range (bs : Bytes) (x : Int) (h : toInt32 bs = .ok x) : IsInt32 x := by
  unfold toInt32 at h
  split at h
  · cases h
    have := toSigned_range 32 (beUint (List.take 4 bs)) (by decide)
    unfold IsInt32
    simpa using this
  · cases h

theorem toInt16_range (bs : Bytes) (x : Int) (h : toInt16 bs = .ok x) :
    -2 ^ 15 ≤ x ∧ x < 2 ^ 15 := by
  unfold toInt16 at h
  split at h
  · cases h
    have := toSigned_range 16 (beUint (List.take 2 bs)) (by decide)
    simpa using this
  · cases h

/-- The loop of `parseRelationWalData` appends exactly one column per
iteration. -/
theorem relationLoop_length (data : Bytes) :
    ∀ (left : Nat) (offset : Int) (columns result : List RelationColumn),
      relationLoop data left offset columns = .ok result →
      result.length = columns.length + left := by
  intro left
  induction left with
  | zero =>
    intro offset columns result h
    simp only [relationLoop] at h
    cases h
    rfl
  | succ k ih =>
    intro offset columns result h
    simp only [relationLoop, Res.bind_eq, Res.bind_eq_ok] at h
    obtain ⟨flag, -, bs, -, ty, -, modifier, -, h⟩ := h
    have := ih _ _ _ h
    simp at this
    omega

/-- What `parseRelationWalData` returns is consistent: the identifier is an
`int32`, the declared count is a non-negative `int16` and equals the number
of decoded columns. -/
theorem parseRelationWalData_consistent (p : WalParser) (body : Bytes) (r : RelationWalData)
    (h : parseRelationWalData p body = .ok r) :
    IsInt32 r.ID ∧ 0 ≤ r.ColumnsNum ∧ r.ColumnsNum < 2 ^ 15 ∧ r.Consistent := by
  simp only [parseRelationWalData, Res.bind_eq, Res.bind_eq_ok] at h
  obtain ⟨id, ⟨s0, -, hid⟩, ns, -, rn, -, ri, -, nums, ⟨s1, -, hnums⟩, h⟩ := h
  split at h
  · cases h
  · rename_i hneg
    simp only [Res.bind_eq_ok] at h
    obtain ⟨columns, hloop, h⟩ := h
    cases h
    have hl := relationLoop_length _ _ _ _ _ hloop
    have hr := toInt16_range _ _ hnums
    refine ⟨toInt32_range _ _ hid, by simpa using hneg, hr.2, ?_⟩
    simp only [RelationWalData.Consistent, hl, List.length_nil]
    omega

theorem parseRelationWalData_receiver (p q : WalParser) (body : Bytes) :
    parseRelationWalData p body = parseRelationWalData q body := rfl

theorem tupleRow_RelCol (cols : List RelationColumn) :
    ∀ fields : List Field, fields.length = cols.length →
      (tupleRow cols fields).Tuples.map Tuple.RelCol = cols := by
  induction cols with
  | nil => intro fields _; simp [tupleRow]
  | cons c cs ih =>
    intro fields h
    cases fields with
    | nil => simp at h
    | cons f fs =>
      have := ih fs (by simpa using h)
      simp only [tupleRow] at this
      cases f <;> simp [tupleRow, Field.toTuple, this]

theorem tupleRow_Value (cols : List RelationColumn) :
    ∀ fields : List Field, fields.length = cols.length →
      (tupleRow cols fields).Tuples.map Tuple.Value = fields.map Field.value := by
  induction cols with
  | nil => intro fields h; cases fields <;> simp_all [tupleRow]
  | cons c cs ih =>
    intro fields h
    cases fields with
    | nil => simp at h
    | cons f fs =>
      have := ih fs (by simpa using h)
      simp only [tupleRow] at this
      cases f <;> simp [tupleRow, Field.toTuple, Field.value, this]

theorem tupleRow_length (cols : List RelationColumn) (fields : List Field)
    (h : fields.length = cols.length) : (tupleRow cols fields).Tuples.length = cols.length := by
  simp [tupleRow, h]

/-- The value of `NewTupleData` on well-formed tuple data with exactly the
column count of a consistent relation. -/
theorem NewTupleData_exact (rel : RelationWalData) (hrel : rel.Consistent)
    (fields : List Field) (hwf : ∀ f ∈ fields, f.WF) (hn : fields.length < 2 ^ 15)
    (hlen : fields.length = rel.Columns.length) (post : Bytes) :
    NewTupleData (encodeTupleData fields ++ post) rel = .ok (tupleRow rel.Columns fields) := by
  rw [NewTupleData_encode rel fields post hwf hn (by rw [hrel, hlen]), if_pos (by omega)]

/-! ## Claims -/

/-- C1. A row or truncate frame that names a relation identifier absent from
the cache is refused: for every parser state `p` and every identifier `id`
with no cache entry, `Parse` of a well-formed Insert frame (`I`, id, `N`,
any tuple data), Update frame (`U`, id, any row tag, any rest), Delete frame
(`D`, id, `K` or `O`, any tuple data) and Truncate frame (`T`, count,
options, exactly count identifiers among which `id`) returns a
relation-not-found error, and the parser state, hence the cache, is the one
before the call. -/
theorem unknown_relation_is_refused (p : WalParser) (lsn : LSN) (id : Int)
    (hid : IsInt32 id) (hmiss : p.relations id = none) :
    (∀ td : Bytes, Parse p ⟨lsn, Insert :: (be32 id ++ 78 :: td)⟩
        = .returned { Ty := Undefined, Value := none } (some (.relationNotFound id)) p) ∧
    (∀ (tag : Byte) (rest : Bytes), Parse p ⟨lsn, Update :: (be32 id ++ tag :: rest)⟩
        = .returned { Ty := Undefined, Value := none } (some (.relationNotFound id)) p) ∧
    (∀ (tag : Byte) (td : Bytes), tag = 75 ∨ tag = 79 →
        Parse p ⟨lsn, Delete :: (be32 id ++ tag :: td)⟩
          = .returned { Ty := Undefined, Value := none } (some (.relationNotFound id)) p) ∧
    (∀ (opt : Byte) (ids : List Int), (∀ x ∈ ids, IsInt32 x) → ids.length < 2 ^ 31 →
        id ∈ ids →
        ∃ missing, missing ∈ ids ∧ p.relations missing = none ∧
          Parse p ⟨lsn, Truncate :: (be32 ids.length ++ opt :: (ids.map be32).flatten)⟩
            = .returned { Ty := Undefined, Value := none }
                (some (.relationNotFound missing)) p) := by
  refine ⟨?_, ?_, ?_, ?_⟩
  · intro td
    rw [Parse_insert, parseInsertWalData_frame p id hid]
    simp [hmiss, finish]
  · intro tag rest
    rw [Parse_update, parseUpdateWalData_frame p id hid]
    simp [hmiss, finish]
  · intro tag td htag
    rw [Parse_delete, parseDeleteWalData_frame p id hid]
    rcases htag with h | h <;> simp [h, hmiss, finish]
  · intro opt ids hids hlen hmem
    rw [Parse_truncate, parseTruncateWalData_ids p opt ids hids hlen]
    cases hfind : ids.find? (fun x => (p.relations x).isNone) with
    | none =>
      have := List.find?_eq_none.mp hfind id hmem
      simp [hmiss] at this
    | some m =>
      refine ⟨m, List.mem_of_find?_eq_some hfind, ?_, ?_⟩
      · have := List.find?_some hfind
        simpa using this
      · simp [finish]

/-- The instance of C1 on a fresh parser, whose cache has no entry for the
identifier 7: the Insert, Update, Delete and Truncate frames naming it. -/
theorem unknown_relation_is_refused_witness :
    IsInt32 7 ∧ NewWalParser.relations 7 = none ∧
    Parse NewWalParser ⟨0, Insert :: (be32 7 ++ 78 :: [0, 0])⟩
      = .returned { Ty := Undefined, Value := none } (some (.relationNotFound 7))
          NewWalParser ∧
    Parse NewWalParser ⟨0, Update :: (be32 7 ++ 75 :: [])⟩
      = .returned { Ty := Undefined, Value := none } (some (.relationNotFound 7))
          NewWalParser ∧
    Parse NewWalParser ⟨0, Delete :: (be32 7 ++ 79 :: [0, 0])⟩
      = .returned { Ty := Undefined, Value := none } (some (.relationNotFound 7))
          NewWalParser ∧
    ∃ missing, missing ∈ [7] ∧ NewWalParser.relations missing = none ∧
      Parse NewWalParser
          ⟨0, Truncate :: (be32 ([7] : List Int).length ++ 1 :: ([7].map be32).flatten)⟩
        = .returned { Ty := Undefined, Value := none } (some (.relationNotFound missing))
            NewWalParser :=
  have h := unknown_relation_is_refused NewWalParser 0 7 (by decide) rfl
  ⟨by decide, rfl, h.1 [0, 0], h.2.1 75 [], h.2.2.1 79 [0, 0] (by decide),
    h.2.2.2 1 [7] (by decide) (by decide) (by decide)⟩

/-- C2. A Relation frame whose body `parseRelationWalData` decodes to the
descriptor `r` makes `Parse` return no error, `r` as the message value, and
a parser whose cache is the old cache with `r.ID` mapped to `r`: the entry
under `r.ID` is `r` whatever was there before and the entry of every other
identifier is the old one. -/
theorem relation_frame_is_cached (p : WalParser) (lsn : LSN) (body : Bytes)
    (r : RelationWalData) (hbody : parseRelationWalData p body = .ok r) :
    ∃ p', Parse p ⟨lsn, Relation :: body⟩
        = .returned { Ty := Undefined, Value := some (Wal.relation r) } none p' ∧
      p'.relations r.ID = some r ∧
      (∀ k, k ≠ r.ID → p'.relations k = p.relations k) ∧
      p'.relations = (fun k => if k = r.ID then some r else p.relations k) := by
  refine ⟨p.store r.ID r, ?_, ?_, ?_, rfl⟩
  · rw [Parse_relation, hbody]
  · simp [WalParser.store]
  · intro k hk
    simp [WalParser.store, hk]

/-- The instance of C2: the Relation frame of table `public.accounts` on a
fresh parser. -/
theorem relation_frame_is_cached_witness :
    parseRelationWalData NewWalParser accountsBody = .ok accountsRelation ∧
    ∃ p', Parse NewWalParser ⟨0, Relation :: accountsBody⟩
        = .returned { Ty := Undefined, Value := some (Wal.relation accountsRelation) } none p' ∧
      p'.relations accountsRelation.ID = some accountsRelation ∧
      (∀ k, k ≠ accountsRelation.ID → p'.relations k = NewWalParser.relations k) ∧
      p'.relations
        = (fun k => if k = accountsRelation.ID then some accountsRelation
                    else NewWalParser.relations k) :=
  ⟨by decide, relation_frame_is_cached NewWalParser 0 accountsBody accountsRelation (by decide)⟩

/-- C3. Two Relation frames with the same identifier `id` (their column
lists may differ in any way) are parsed one after the other; a well-formed
Insert frame, Update frame with tag `N` or Delete frame (tag `K` or `O`)
that references `id` and carries as many fields as the second frame declares
columns then succeeds, the message embeds the descriptor decoded from the
second frame, and its i-th Tuple carries the i-th column of the second
frame: the result is built from the second descriptor and the fields alone. -/
theorem resent_relation_replaces_schema (p : WalParser) (lsn : LSN) (body1 body2 : Bytes)
    (r1 r2 : RelationWalData)
    (h1 : parseRelationWalData p body1 = .ok r1) (h2 : parseRelationWalData p body2 = .ok r2)
    (id : Int) (hid1 : r1.ID = id) (hid2 : r2.ID = id)
    (fields : List Field) (hwf : ∀ f ∈ fields, f.WF)
    (hlen : fields.length = r2.Columns.length) :
    ∃ p1 p2,
      Parse p ⟨lsn, Relation :: body1⟩
        = .returned { Ty := Undefined, Value := some (Wal.relation r1) } none p1 ∧
      Parse p1 ⟨lsn, Relation :: body2⟩
        = .returned { Ty := Undefined, Value := some (Wal.relation r2) } none p2 ∧
      Parse p2 ⟨lsn, Insert :: (be32 id ++ 78 :: encodeTupleData fields)⟩
        = .returned { Ty := Undefined, Value := some (Wal.insert
            { RelationId := id, Relation := r2, Tuples := tupleRow r2.Columns fields }) }
            none p2 ∧
      Parse p2 ⟨lsn, Update :: (be32 id ++ 78 :: encodeTupleData fields)⟩
        = .returned { Ty := Undefined, Value := some (Wal.update
            { RelationId := id, Relation := r2, Tuples := tupleRow r2.Columns fields }) }
            none p2 ∧
      (∀ tag : Byte, tag = 75 ∨ tag = 79 →
        Parse p2 ⟨lsn, Delete :: (be32 id ++ tag :: encodeTupleData fields)⟩
          = .returned { Ty := Undefined, Value := some (Wal.delete
              { RelationId := id, Relation := r2, Tuples := tupleRow r2.Columns fields }) }
              none p2) ∧
      (tupleRow r2.Columns fields).Tuples.map Tuple.RelCol = r2.Columns := by
  obtain ⟨hid, -, h15, hcons⟩ := parseRelationWalData_consistent p body2 r2 h2
  rw [hid2] at hid
  have hn : fields.length < 2 ^ 15 := by
    unfold RelationWalData.Consistent at hcons; omega
  have htd := NewTupleData_exact r2 hcons fields hwf hn hlen []
  rw [List.append_nil] at htd
  have hcache : ((p.store id r1).store id r2).relations id = some r2 := by
    simp [WalParser.store]
  refine ⟨p.store id r1, (p.store id r1).store id r2, ?_, ?_, ?_, ?_, ?_, ?_⟩
  · rw [Parse_relation, h1]
    simp only [hid1]
  · rw [Parse_relation, parseRelationWalData_receiver _ p, h2]
    simp only [hid2]
  · rw [Parse_insert, parseInsertWalData_frame _ _ hid, hcache]
    simp [htd, finish]
  · rw [Parse_update, parseUpdateWalData_frame _ _ hid, hcache]
    simp [htd, finish]
  · intro tag htag
    rw [Parse_delete, parseDeleteWalData_frame _ _ hid, hcache]
    rcases htag with h | h <;> simp [h, htd, finish]
  · exact tupleRow_RelCol _ _ hlen

/-- The instance of C3: `public.accounts` is first announced with the single
column `id`, then with the columns `id` and `balance`; a row of two fields is
decoded against the second schema. -/
theorem resent_relation_replaces_schema_witness :
    parseRelationWalData NewWalParser accountsBodyOld = .ok accountsRelationOld ∧
    parseRelationWalData NewWalParser accountsBody = .ok accountsRelation ∧
    accountsRelationOld.ID = 16385 ∧ accountsRelation.ID = 16385 ∧
    accountsRelationOld.Columns ≠ accountsRelation.Columns ∧
    ∃ p1 p2,
      Parse NewWalParser ⟨0, Relation :: accountsBodyOld⟩
        = .returned { Ty := Undefined, Value := some (Wal.relation accountsRelationOld) }
            none p1 ∧
      Parse p1 ⟨0, Relation :: accountsBody⟩
        = .returned { Ty := Undefined, Value := some (Wal.relation accountsRelation) }
            none p2 ∧
      Parse p2 ⟨0, Insert :: (be32 16385 ++ 78 :: encodeTupleData accountsRow)⟩
        = .returned { Ty := Undefined, Value := some (Wal.insert
            { RelationId := 16385, Relation := accountsRelation,
              Tuples := tupleRow accountsRelation.Columns accountsRow }) } none p2 ∧
      Parse p2 ⟨0, Update :: (be32 16385 ++ 78 :: encodeTupleData accountsRow)⟩
        = .returned { Ty := Undefined, Value := some (Wal.update
            { RelationId := 16385, Relation := accountsRelation,
              Tuples := tupleRow accountsRelation.Columns accountsRow }) } none p2 ∧
      (∀ tag : Byte, tag = 75 ∨ tag = 79 →
        Parse p2 ⟨0, Delete :: (be32 16385 ++ tag :: encodeTupleData accountsRow)⟩
          = .returned { Ty := Undefined, Value := some (Wal.delete
              { RelationId := 16385, Relation := accountsRelation,
                Tuples := tupleRow accountsRelation.Columns accountsRow }) } none p2) ∧
      (tupleRow accountsRelation.Columns accountsRow).Tuples.map Tuple.RelCol
        = accountsRelation.Columns :=
  ⟨by decide, by decide, by decide, by decide, by decide,
    resent_relation_replaces_schema NewWalParser 0 accountsBodyOld accountsBody
      accountsRelationOld accountsRelation (by decide) (by decide) 16385 (by decide)
      (by decide) accountsRow (by decide) (by decide)⟩

/-- C4. When the cache maps `id` to a descriptor `rel` whose declared count
is the length of its column list, `Parse` of the frame `I` · id · `N` ·
TupleData, the TupleData being well formed with exactly that many fields,
succeeds and returns an Insert message with `RelationId = id`,
`Relation = rel` and one Tuple per column whose raw values are, in order,
the value bytes of the fields; the parser is unchanged. -/
theorem insert_decodes_row (p : WalParser) (lsn : LSN) (id : Int) (hid : IsInt32 id)
    (rel : RelationWalData) (hcache : p.relations id = some rel) (hrel : rel.Consistent)
    (h15 : rel.ColumnsNum < 2 ^ 15)
    (fields : List Field) (hwf : ∀ f ∈ fields, f.WF)
    (hlen : fields.length = rel.Columns.length) :
    Parse p ⟨lsn, Insert :: (be32 id ++ 78 :: encodeTupleData fields)⟩
      = .returned { Ty := Undefined, Value := some (Wal.insert
          { RelationId := id, Relation := rel, Tuples := tupleRow rel.Columns fields }) }
          none p ∧
    (tupleRow rel.Columns fields).Tuples.length = rel.Columns.length ∧
    (tupleRow rel.Columns fields).Tuples.map Tuple.Value = fields.map Field.value := by
  have hn : fields.length < 2 ^ 15 := by
    unfold RelationWalData.Consistent at hrel; omega
  have htd := NewTupleData_exact rel hrel fields hwf hn hlen []
  rw [List.append_nil] at htd
  refine ⟨?_, tupleRow_length _ _ hlen, tupleRow_Value _ _ hlen⟩
  rw [Parse_insert, parseInsertWalData_frame _ _ hid, hcache]
  simp [htd, finish]

/-- The instance of C4 given by the specification: after the Relation
message of `public.accounts` with the columns `id` (oid 23, int4) and
`balance` (oid 1700, numeric), the Insert frame with two `t` fields holding
`1` and `9.5` yields the full name `public.accounts` and the values `1` and
`9.5`. -/
theorem insert_decodes_row_witness :
    ∃ p1,
      Parse NewWalParser ⟨0, Relation :: accountsBody⟩
        = .returned { Ty := Undefined, Value := some (Wal.relation accountsRelation) }
            none p1 ∧
      p1.relations 16385 = some accountsRelation ∧
      accountsRelation.FullName = str "public.accounts" ∧
      accountsRelation.Columns.map (fun c => (c.Name, c.Ty.Oid, c.Ty.Typname))
        = [(str "id", 23, "int4"), (str "balance", 1700, "numeric")] ∧
      accountsRow = [.text (str "1"), .text (str "9.5")] ∧
      (Parse p1 ⟨0, Insert :: (be32 16385 ++ 78 :: encodeTupleData accountsRow)⟩
        = .returned { Ty := Undefined, Value := some (Wal.insert
            { RelationId := 16385, Relation := accountsRelation,
              Tuples := tupleRow accountsRelation.Columns accountsRow }) } none p1 ∧
       (tupleRow accountsRelation.Columns accountsRow).Tuples.length
         = accountsRelation.Columns.length ∧
       (tupleRow accountsRelation.Columns accountsRow).Tuples.map Tuple.Value
         = accountsRow.map Field.value) ∧
      (tupleRow accountsRelation.Columns accountsRow).Tuples.map Tuple.Value
        = [some (str "1"), some (str "9.5")] :=
  ⟨NewWalParser.store 16385 accountsRelation, rfl, by decide, by decide, by decide, rfl,
    insert_decodes_row (NewWalParser.store 16385 accountsRelation) 0 16385 (by decide)
      accountsRelation (by decide) (by decide) (by decide) accountsRow (by decide) (by decide),
    by decide⟩

/-- More fields than columns: on well-formed tuple data that declares more
fields than the relation has columns, `NewTupleData` passes the count check
and then panics on `rel.Columns[i]`. -/
theorem NewTupleData_trailing_fields_panic (rel : RelationWalData) (hrel : rel.Consistent)
    (fields : List Field) (hwf : ∀ f ∈ fields, f.WF) (hn : fields.length < 2 ^ 15)
    (hmore : rel.Columns.length < fields.length) (post : Bytes) :
    NewTupleData (encodeTupleData fields ++ post) rel = .panic := by
  rw [NewTupleData_encode rel fields post hwf hn (by rw [hrel]; omega), if_neg (by omega)]

/-- C5 (failing input). The relation has one column and the tuple data
declares two `n` fields (bytes `00 02 6E 6E`): the count check `n <
rel.ColumnsNum` accepts it, the first field is decoded, and the second
iteration panics with an index out of range on `rel.Columns[1]`; no Tuple Row
of one Tuple is returned. With exactly one field the decode succeeds. -/
theorem trailing_field_panics :
    accountsRelationOld.Consistent ∧ accountsRelationOld.ColumnsNum = 1 ∧
    encodeTupleData [.null, .null] = [0, 2, 110, 110] ∧
    NewTupleData [0, 2, 110, 110] accountsRelationOld = .panic ∧
    NewTupleData [0, 1, 110] accountsRelationOld
      = .ok (tupleRow accountsRelationOld.Columns [.null]) ∧
    Parse (NewWalParser.store 16385 accountsRelationOld)
        ⟨0, Insert :: (be32 16385 ++ 78 :: [0, 2, 110, 110])⟩ = .panic := by
  refine ⟨by decide, by decide, by decide, by decide, by decide, ?_⟩
  rw [Parse_insert, parseInsertWalData_frame _ _ (by decide)]
  have h : (NewWalParser.store 16385 accountsRelationOld).relations 16385
      = some accountsRelationOld := by decide
  have hp : NewTupleData [0, 2, 110, 110] accountsRelationOld = .panic := by decide
  simp [h, hp, finish]

/-- The loop of `NewTupleData` never produces a Tuple with both flags set. -/
theorem tupleLoop_flags (bs : Bytes) (rel : RelationWalData) :
    ∀ (left : Nat) (i offset : Int) (acc result : List Tuple),
      tupleLoop bs rel left i offset acc = .ok result →
      (∀ t ∈ acc, ¬ (t.IsNull = true ∧ t.IsTOAST = true)) →
      ∀ t ∈ result, ¬ (t.IsNull = true ∧ t.IsTOAST = true) := by
  intro left
  induction left with
  | zero =>
    intro i offset acc result h hacc
    simp only [tupleLoop] at h
    cases h
    exact hacc
  | succ k ih =>
    intro i offset acc result h hacc
    simp only [tupleLoop, Res.bind_eq, Res.bind_eq_ok] at h
    obtain ⟨ty, -, h⟩ := h
    split at h
    · simp only [Res.bind_eq_ok] at h
      obtain ⟨col, -, h⟩ := h
      refine ih _ _ _ _ h ?_
      intro t ht
      rcases List.mem_append.mp ht with ht | ht
      · exact hacc t ht
      · simp at ht; simp [ht]
    · split at h
      · simp only [Res.bind_eq_ok] at h
        obtain ⟨col, -, h⟩ := h
        refine ih _ _ _ _ h ?_
        intro t ht
        rcases List.mem_append.mp ht with ht | ht
        · exact hacc t ht
        · simp at ht; simp [ht]
      · split at h
        · simp only [Res.bind_eq_ok] at h
          obtain ⟨length, -, val, -, col, -, h⟩ := h
          refine ih _ _ _ _ h ?_
          intro t ht
          rcases List.mem_append.mp ht with ht | ht
          · exact hacc t ht
          · simp at ht; simp [ht]
        · cases h

/-- A tag byte other than `n`, `u`, `t` where a field is expected, after
well-formed fields that fit the columns, fails the decode. -/
theorem NewTupleData_bad_tag (rel : RelationWalData) (n : Nat) (hn : n < 2 ^ 15)
    (hge : rel.ColumnsNum ≤ n) (fields : List Field) (hwf : ∀ f ∈ fields, f.WF)
    (hlt : fields.length < n) (hfit : fields.length ≤ rel.Columns.length)
    (b : Byte) (hb : b ≠ 110 ∧ b ≠ 117 ∧ b ≠ 116) (rest : Bytes) :
    NewTupleData (be16 n ++ encodeFields fields ++ b :: rest) rel = .error .tupleBadFlag := by
  obtain ⟨k, hk⟩ : ∃ k, n = fields.length + (k + 1) := ⟨n - fields.length - 1, by omega⟩
  subst hk
  generalize hN : ((fields.length + (k + 1) : Nat) : Int) = N at *
  have hcount : (slice (be16 N ++ encodeFields fields ++ b :: rest) 0 (0 + sizeOfInt16)).bind
      toInt16 = .ok N := by
    rw [slice_of_eq _ [] (be16 N) (encodeFields fields ++ b :: rest)
      (by simp) _ _ (by simp) (by simp)]
    exact toInt16_be16 _ (by omega)
  have hloop := tupleLoop_fields_then rel (k + 1) fields hwf
    (be16 N ++ encodeFields fields ++ b :: rest) (be16 N) (b :: rest) [] rel.Columns
    0 (0 + sizeOfInt16) _ _ [] rfl (by simp) (by simp) (by simp) rfl rfl
  rw [if_pos hfit] at hloop
  have htag : index (be16 N ++ encodeFields fields ++ b :: rest)
      (0 + sizeOfInt16 + (encodeFields fields).length) = .ok b :=
    index_of_eq _ (be16 N ++ encodeFields fields) b rest rfl _ (by simp)
  have hNat : N.toNat = fields.length + (k + 1) := by omega
  simp only [NewTupleData, Res.bind_eq, hcount, Res.ok_bind]
  rw [if_neg (by omega), if_neg (by omega), hNat, hloop]
  simp only [tupleLoop, Res.bind_eq, htag, Res.ok_bind, if_neg hb.1, if_neg hb.2.1,
    if_neg hb.2.2, Res.error_bind]

/-- C6. `NewTupleData` decodes each field by its tag. For a relation with
`c` columns and `c` fields, each null, unchanged-TOAST or a byte string `v`
shorter than 2^31, the decode of the encoding (2-byte count, then per field
`n`, `u`, or `t` · 4-byte length · `v`) succeeds and the i-th Tuple is the
one `Field.toTuple` gives for the i-th column: (no value, IsNull) for `n`,
(no value, IsTOAST) for `u`, (value `v`, no flag) for `t`. If a byte other
than `n`, `u`, `t` stands where the tag of one of the `c` fields is
expected, the decode returns the bad-format error. No Tuple that
`NewTupleData` returns, on any input, has both flags set. -/
theorem tuple_fields_by_tag (rel : RelationWalData) (hrel : rel.Consistent)
    (h15 : rel.ColumnsNum < 2 ^ 15) :
    (∀ fields : List Field, (∀ f ∈ fields, f.WF) → fields.length = rel.Columns.length →
      NewTupleData (encodeTupleData fields) rel
        = .ok { Tuples := List.zipWith Field.toTuple rel.Columns fields } ∧
      (List.zipWith Field.toTuple rel.Columns fields).length = rel.Columns.length) ∧
    (∀ (col : RelationColumn) (v : Bytes),
      Field.toTuple col .null
        = { RelCol := col, Value := none, IsNull := true, IsTOAST := false } ∧
      Field.toTuple col .toast
        = { RelCol := col, Value := none, IsNull := false, IsTOAST := true } ∧
      Field.toTuple col (.text v)
        = { RelCol := col, Value := some v, IsNull := false, IsTOAST := false }) ∧
    (∀ (fields : List Field) (b : Byte) (rest : Bytes), (∀ f ∈ fields, f.WF) →
      fields.length < rel.Columns.length → b ≠ 110 ∧ b ≠ 117 ∧ b ≠ 116 →
      NewTupleData (be16 rel.Columns.length ++ encodeFields fields ++ b :: rest) rel
        = .error .tupleBadFlag) ∧
    (∀ (anyRel : RelationWalData) (bs : Bytes) (td : TupleData),
      NewTupleData bs anyRel = .ok td →
      ∀ t ∈ td.Tuples, ¬ (t.IsNull = true ∧ t.IsTOAST = true)) := by
  have hc : rel.Columns.length < 2 ^ 15 := by
    unfold RelationWalData.Consistent at hrel; omega
  refine ⟨?_, fun _ _ => ⟨rfl, rfl, rfl⟩, ?_, ?_⟩
  · intro fields hwf hlen
    have htd := NewTupleData_exact rel hrel fields hwf (by omega) hlen []
    rw [List.append_nil] at htd
    exact ⟨htd, by simp [hlen]⟩
  · intro fields b rest hwf hlt hb
    exact NewTupleData_bad_tag rel rel.Columns.length hc (by rw [hrel]) fields hwf hlt
      (by omega) b hb rest
  · intro anyRel bs td h t ht
    simp only [NewTupleData, Res.bind_eq, Res.bind_eq_ok] at h
    obtain ⟨n, -, h⟩ := h
    split at h
    · cases h
    · split at h
      · cases h
      · simp only [Res.bind_eq_ok] at h
        obtain ⟨tuples, hloop, h⟩ := h
        cases h
        exact tupleLoop_flags _ _ _ _ _ _ _ hloop (by simp) t ht

/-- The instance of C6 on the relation `public.accounts`. -/
theorem tuple_fields_by_tag_witness :
    accountsRelation.Consistent ∧ accountsRelation.ColumnsNum < 2 ^ 15 ∧
    NewTupleData (encodeTupleData [.null, .text (str "9.5")]) accountsRelation
      = .ok { Tuples := List.zipWith Field.toTuple accountsRelation.Columns
                [.null, .text (str "9.5")] } ∧
    NewTupleData (be16 accountsRelation.Columns.length ++ encodeFields [.toast] ++ 120 :: [])
        accountsRelation = .error .tupleBadFlag :=
  ⟨by decide, by decide,
    ((tuple_fields_by_tag accountsRelation (by decide) (by decide)).1
      [.null, .text (str "9.5")] (by decide) (by decide)).1,
    (tuple_fields_by_tag accountsRelation (by decide) (by decide)).2.2.1
      [.toast] 120 [] (by decide) (by decide) (by decide)⟩

/-- The count of `NewTupleData` read from a well-formed 2-byte prefix. -/
theorem tuple_count_read (n : Int) (hn : -2 ^ 15 ≤ n ∧ n < 2 ^ 15) (rest : Bytes) :
    (slice (be16 n ++ rest) 0 (0 + sizeOfInt16)).bind toInt16 = .ok n := by
  rw [slice_of_eq _ [] (be16 n) rest (by simp) _ _ (by simp) (by simp)]
  exact toInt16_be16 _ hn

/-- A negative declared count makes `NewTupleData` panic in `make`, before
the count is compared with the schema. -/
theorem NewTupleData_negative_count (rel : RelationWalData) (n : Int) (hlo : -2 ^ 15 ≤ n)
    (hneg : n < 0) (rest : Bytes) : NewTupleData (be16 n ++ rest) rel = .panic := by
  simp only [NewTupleData, Res.bind_eq, tuple_count_read n ⟨hlo, by omega⟩ rest, Res.ok_bind]
  rw [if_pos hneg]

/-- A declared count that is not negative and below the declared count of
the relation makes `NewTupleData` return the mismatch error, whatever bytes
follow, and the Insert, Update (`N`) and Delete frames that carry it fail
with that error and an unchanged parser. -/
theorem short_tuple_count_is_refused (p : WalParser) (lsn : LSN) (id : Int) (hid : IsInt32 id)
    (rel : RelationWalData) (hcache : p.relations id = some rel)
    (n : Int) (h0 : 0 ≤ n) (hshort : n < rel.ColumnsNum) (h15 : n < 2 ^ 15) (rest : Bytes) :
    NewTupleData (be16 n ++ rest) rel = .error (.tupleMismatch n rel.ColumnsNum) ∧
    Parse p ⟨lsn, Insert :: (be32 id ++ 78 :: (be16 n ++ rest))⟩
      = .returned { Ty := Undefined, Value := none }
          (some (.tupleMismatch n rel.ColumnsNum)) p ∧
    Parse p ⟨lsn, Update :: (be32 id ++ 78 :: (be16 n ++ rest))⟩
      = .returned { Ty := Undefined, Value := none }
          (some (.tupleMismatch n rel.ColumnsNum)) p ∧
    (∀ tag : Byte, tag = 75 ∨ tag = 79 →
      Parse p ⟨lsn, Delete :: (be32 id ++ tag :: (be16 n ++ rest))⟩
        = .returned { Ty := Undefined, Value := none }
            (some (.tupleMismatch n rel.ColumnsNum)) p) := by
  have htd : NewTupleData (be16 n ++ rest) rel = .error (.tupleMismatch n rel.ColumnsNum) := by
    simp only [NewTupleData, Res.bind_eq, tuple_count_read n ⟨by omega, h15⟩ rest, Res.ok_bind]
    rw [if_neg (by omega), if_pos hshort]
  refine ⟨htd, ?_, ?_, ?_⟩
  · rw [Parse_insert, parseInsertWalData_frame _ _ hid, hcache]
    simp [htd, finish]
  · rw [Parse_update, parseUpdateWalData_frame _ _ hid, hcache]
    simp [htd, finish]
  · intro tag htag
    rw [Parse_delete, parseDeleteWalData_frame _ _ hid, hcache]
    rcases htag with h | h <;> simp [h, htd, finish]

/-- C7 (failing input). The tuple data `FF FF` declares the signed count -1,
which is below the declared count 2 of `public.accounts`; `NewTupleData`
does not return the mismatch error: `make([]Tuple, 0, n)` runs before the
check `n < rel.ColumnsNum` and panics on the negative capacity, and so does
`Parse` of the Insert frame that carries this tuple data. -/
theorem negative_tuple_count_panics :
    toInt16 [255, 255] = .ok (-1) ∧ (-1 : Int) < accountsRelation.ColumnsNum ∧
    NewTupleData [255, 255] accountsRelation = .panic ∧
    Parse (NewWalParser.store 16385 accountsRelation)
        ⟨0, Insert :: (be32 16385 ++ 78 :: [255, 255])⟩ = .panic := by
  refine ⟨by decide, by decide, by decide, ?_⟩
  rw [Parse_insert, parseInsertWalData_frame _ _ (by decide)]
  have h : (NewWalParser.store 16385 accountsRelation).relations 16385
      = some accountsRelation := by decide
  have hp : NewTupleData [255, 255] accountsRelation = .panic := by decide
  simp [h, hp, finish]

/-- C8. With relation `id` in the cache, `Parse` of an Update frame `U` · id
· tag · rest returns, for tag `K` and for tag `O`, an unsupported-flag error
and no message value; for a tag outside `K`, `O`, `N` it returns the
bad-format error; the unsupported-flag errors differ from the bad-format
error as values and in their message text. With tag `N` and well-formed
tuple data of exactly the relation's column count it returns an Update
message with `RelationId = id`, the cached descriptor and the decoded
new-row Tuples. The parser is unchanged in every case. -/
theorem update_row_tags (p : WalParser) (lsn : LSN) (id : Int) (hid : IsInt32 id)
    (rel : RelationWalData) (hcache : p.relations id = some rel) (hrel : rel.Consistent)
    (h15 : rel.ColumnsNum < 2 ^ 15)
    (fields : List Field) (hwf : ∀ f ∈ fields, f.WF)
    (hlen : fields.length = rel.Columns.length) :
    (∀ rest : Bytes, Parse p ⟨lsn, Update :: (be32 id ++ 75 :: rest)⟩
        = .returned { Ty := Undefined, Value := none } (some .updateUnsupportedK) p) ∧
    (∀ rest : Bytes, Parse p ⟨lsn, Update :: (be32 id ++ 79 :: rest)⟩
        = .returned { Ty := Undefined, Value := none } (some .updateUnsupportedO) p) ∧
    (∀ (tag : Byte) (rest : Bytes), tag ≠ 75 → tag ≠ 79 → tag ≠ 78 →
      Parse p ⟨lsn, Update :: (be32 id ++ tag :: rest)⟩
        = .returned { Ty := Undefined, Value := none } (some .updateBadFlag) p) ∧
    (Err.updateUnsupportedK ≠ Err.updateBadFlag ∧ Err.updateUnsupportedO ≠ Err.updateBadFlag ∧
      Err.updateUnsupportedK.message ≠ Err.updateBadFlag.message ∧
      Err.updateUnsupportedO.message ≠ Err.updateBadFlag.message) ∧
    Parse p ⟨lsn, Update :: (be32 id ++ 78 :: encodeTupleData fields)⟩
      = .returned { Ty := Undefined, Value := some (Wal.update
          { RelationId := id, Relation := rel, Tuples := tupleRow rel.Columns fields }) }
          none p := by
  have hn : fields.length < 2 ^ 15 := by
    unfold RelationWalData.Consistent at hrel; omega
  have htd := NewTupleData_exact rel hrel fields hwf hn hlen []
  rw [List.append_nil] at htd
  refine ⟨?_, ?_, ?_, ⟨by decide, by decide, by decide, by decide⟩, ?_⟩
  · intro rest
    rw [Parse_update, parseUpdateWalData_frame _ _ hid, hcache]
    simp [finish]
  · intro rest
    rw [Parse_update, parseUpdateWalData_frame _ _ hid, hcache]
    simp [finish]
  · intro tag rest hK hO hN
    rw [Parse_update, parseUpdateWalData_frame _ _ hid, hcache]
    simp [hK, hO, hN, finish]
  · rw [Parse_update, parseUpdateWalData_frame _ _ hid, hcache]
    simp [htd, finish]

/-- The instance of C8 on `public.accounts`. -/
theorem update_row_tags_witness :
    Parse (NewWalParser.store 16385 accountsRelation)
        ⟨0, Update :: (be32 16385 ++ 75 :: encodeTupleData accountsRow)⟩
      = .returned { Ty := Undefined, Value := none } (some .updateUnsupportedK)
          (NewWalParser.store 16385 accountsRelation) ∧
    Parse (NewWalParser.store 16385 accountsRelation)
        ⟨0, Update :: (be32 16385 ++ 120 :: [])⟩
      = .returned { Ty := Undefined, Value := none } (some .updateBadFlag)
          (NewWalParser.store 16385 accountsRelation) ∧
    Parse (NewWalParser.store 16385 accountsRelation)
        ⟨0, Update :: (be32 16385 ++ 78 :: encodeTupleData accountsRow)⟩
      = .returned { Ty := Undefined, Value := some (Wal.update
          { RelationId := 16385, Relation := accountsRelation,
            Tuples := tupleRow accountsRelation.Columns accountsRow }) } none
          (NewWalParser.store 16385 accountsRelation) :=
  have h := update_row_tags (NewWalParser.store 16385 accountsRelation) 0 16385 (by decide)
    accountsRelation (by decide) (by decide) (by decide) accountsRow (by decide) (by decide)
  ⟨h.1 _, h.2.2.1 120 [] (by decide) (by decide) (by decide), h.2.2.2.2⟩

/-- C9. With relation `id` in the cache and well-formed tuple data of
exactly the relation's column count, `Parse` of `I` · id · tag · TupleData
succeeds if and only if the tag is `N`, and `Parse` of `D` · id · tag ·
TupleData succeeds if and only if the tag is `K` or `O`; a refused tag gives
the bad-format error of the message kind, and a successful Delete returns
`RelationId = id`, the cached descriptor and the decoded Tuples. -/
theorem insert_delete_row_tag (p : WalParser) (lsn : LSN) (id : Int) (hid : IsInt32 id)
    (rel : RelationWalData) (hcache : p.relations id = some rel) (hrel : rel.Consistent)
    (h15 : rel.ColumnsNum < 2 ^ 15)
    (fields : List Field) (hwf : ∀ f ∈ fields, f.WF)
    (hlen : fields.length = rel.Columns.length) (tag : Byte) :
    ((Parse p ⟨lsn, Insert :: (be32 id ++ tag :: encodeTupleData fields)⟩).succeeds = true
      ↔ tag = 78) ∧
    ((Parse p ⟨lsn, Delete :: (be32 id ++ tag :: encodeTupleData fields)⟩).succeeds = true
      ↔ tag = 75 ∨ tag = 79) ∧
    (tag ≠ 78 → Parse p ⟨lsn, Insert :: (be32 id ++ tag :: encodeTupleData fields)⟩
      = .returned { Ty := Undefined, Value := none } (some (.insertBadFlag tag)) p) ∧
    (tag ≠ 75 ∧ tag ≠ 79 →
      Parse p ⟨lsn, Delete :: (be32 id ++ tag :: encodeTupleData fields)⟩
        = .returned { Ty := Undefined, Value := none } (some (.deleteBadFlag tag)) p) ∧
    (tag = 75 ∨ tag = 79 →
      Parse p ⟨lsn, Delete :: (be32 id ++ tag :: encodeTupleData fields)⟩
        = .returned { Ty := Undefined, Value := some (Wal.delete
            { RelationId := id, Relation := rel, Tuples := tupleRow rel.Columns fields }) }
            none p) := by
  have hn : fields.length < 2 ^ 15 := by
    unfold RelationWalData.Consistent at hrel; omega
  have htd := NewTupleData_exact rel hrel fields hwf hn hlen []
  rw [List.append_nil] at htd
  rw [Parse_insert, parseInsertWalData_frame _ _ hid, hcache,
    Parse_delete, parseDeleteWalData_frame _ _ hid, hcache]
  refine ⟨?_, ?_, ?_, ?_, ?_⟩
  · by_cases h : tag = 78
    · simp [h, htd, finish, ParseResult.succeeds]
    · simp [h, finish, ParseResult.succeeds]
  · by_cases hK : tag = 75
    · simp [hK, htd, finish, ParseResult.succeeds]
    · by_cases hO : tag = 79
      · simp [hO, htd, finish, ParseResult.succeeds]
      · simp [hK, hO, finish, ParseResult.succeeds]
  · intro h
    simp [h, finish]
  · intro h
    simp [h.1, h.2, finish]
  · intro h
    rcases h with h | h <;> simp [h, htd, finish]

/-- The instance of C9 on `public.accounts` with the Delete tag `K`. -/
theorem insert_delete_row_tag_witness :
    ((Parse (NewWalParser.store 16385 accountsRelation)
        ⟨0, Insert :: (be32 16385 ++ 75 :: encodeTupleData accountsRow)⟩).succeeds = true
      ↔ (75 : Byte) = 78) ∧
    Parse (NewWalParser.store 16385 accountsRelation)
        ⟨0, Delete :: (be32 16385 ++ 75 :: encodeTupleData accountsRow)⟩
      = .returned { Ty := Undefined, Value := some (Wal.delete
          { RelationId := 16385, Relation := accountsRelation,
            Tuples := tupleRow accountsRelation.Columns accountsRow }) } none
          (NewWalParser.store 16385 accountsRelation) :=
  have h := insert_delete_row_tag (NewWalParser.store 16385 accountsRelation) 0 16385
    (by decide) accountsRelation (by decide) (by decide) (by decide) accountsRow (by decide)
    (by decide) 75
  ⟨h.1, h.2.2.2.2 (by decide)⟩

/-- C10. A Truncate body of at least 5 bytes declares the signed count `n`
in its first 4 bytes; when `n` is negative, or when the number of bytes that
follow the count and the options byte is not `n × 4`,
`parseTruncateWalData` returns the bad-format error for every parser state,
and `Parse` returns that error with the parser, hence the cache, unchanged. -/
theorem truncate_length_mismatch (p : WalParser) (lsn : LSN) (n : Int) (hn : IsInt32 n)
    (opt : Byte) (rest : Bytes) (hmis : n < 0 ∨ (rest.length : Int) ≠ n * 4) :
    parseTruncateWalData p (be32 n ++ opt :: rest) = .error .truncateBadFormat ∧
    Parse p ⟨lsn, Truncate :: (be32 n ++ opt :: rest)⟩
      = .returned { Ty := Undefined, Value := none } (some .truncateBadFormat) p := by
  have hne : (rest.length : Int) ≠ n * sizeOfInt32 := by
    simp only [sizeOfInt32]
    rcases hmis with h | h
    · omega
    · exact h
  have hparse : parseTruncateWalData p (be32 n ++ opt :: rest) = .error .truncateBadFormat := by
    simp only [parseTruncateWalData, Res.bind_eq]
    rw [hdr_id _ _ hn _ (by simp)]
    simp only [Res.ok_bind, hdr_tag _ _ _ _ (show (0 : Int) + sizeOfInt32 = 4 by rfl),
      hdr_rest _ _ _ _ (show (0 : Int) + sizeOfInt32 + sizeOfInt8 = 5 by rfl)]
    rw [if_pos hne]
  refine ⟨hparse, ?_⟩
  rw [Parse_truncate, hparse]
  rfl

/-- The instance of C10: the count 2 is followed by four bytes instead of
eight. -/
theorem truncate_length_mismatch_witness :
    IsInt32 2 ∧ ((2 : Int) < 0 ∨ (([0, 0, 64, 1] : Bytes).length : Int) ≠ 2 * 4) ∧
    parseTruncateWalData NewWalParser (be32 2 ++ 0 :: [0, 0, 64, 1])
      = .error .truncateBadFormat ∧
    Parse NewWalParser ⟨0, Truncate :: (be32 2 ++ 0 :: [0, 0, 64, 1])⟩
      = .returned { Ty := Undefined, Value := none } (some .truncateBadFormat) NewWalParser :=
  ⟨by decide, by decide,
    truncate_length_mismatch NewWalParser 0 2 (by decide) 0 [0, 0, 64, 1] (by decide)⟩

theorem filterMap_all_some {α β : Type} (f : α → Option β) :
    ∀ xs : List α, (∀ x ∈ xs, f x ≠ none) → (xs.filterMap f).map some = xs.map f := by
  intro xs
  induction xs with
  | nil => intro _; rfl
  | cons x xs ih =>
    intro h
    have hx := h x (List.mem_cons_self _ _)
    have hxs := ih (fun y hy => h y (List.mem_cons_of_mem _ hy))
    cases hfx : f x with
    | none => exact absurd hfx hx
    | some y => simp [List.filterMap_cons, hfx, hxs]

/-- C11. For a Truncate body count(4) = n ≥ 0 · options(1) · n identifiers
of 4 bytes each, the decode succeeds if and only if every listed identifier
is a key of the cache; on success the `Relations` list has length n and its
i-th element is the cached descriptor of the i-th listed identifier, in the
same order and with duplicates kept; if an identifier is missing, `Parse`
returns an error and no message value. The parser is unchanged. -/
theorem truncate_resolves_every_identifier (p : WalParser) (lsn : LSN) (opt : Byte)
    (ids : List Int) (hids : ∀ x ∈ ids, IsInt32 x) (hlen : ids.length < 2 ^ 31) :
    ((Parse p ⟨lsn, Truncate :: (be32 ids.length ++ opt :: (ids.map be32).flatten)⟩).succeeds
        = true ↔ ∀ x ∈ ids, p.relations x ≠ none) ∧
    ((∀ x ∈ ids, p.relations x ≠ none) →
      ∃ rels : List RelationWalData,
        rels.length = ids.length ∧ rels.map some = ids.map p.relations ∧
        parseTruncateWalData p (be32 ids.length ++ opt :: (ids.map be32).flatten)
          = .ok { Relations := rels, IsCascade := decide (opt = 1),
                  IsRestartIdentity := decide (opt = 2) } ∧
        Parse p ⟨lsn, Truncate :: (be32 ids.length ++ opt :: (ids.map be32).flatten)⟩
          = .returned { Ty := Undefined, Value := some (Wal.truncate
              { Relations := rels, IsCascade := decide (opt = 1),
                IsRestartIdentity := decide (opt = 2) }) } none p) ∧
    ((∃ x ∈ ids, p.relations x = none) →
      ∃ e, Parse p ⟨lsn, Truncate :: (be32 ids.length ++ opt :: (ids.map be32).flatten)⟩
        = .returned { Ty := Undefined, Value := none } (some e) p) := by
  have hparse := parseTruncateWalData_ids p opt ids hids hlen
  rw [Parse_truncate]
  cases hfind : ids.find? (fun x => (p.relations x).isNone) with
  | none =>
    have hall : ∀ x ∈ ids, p.relations x ≠ none := by
      intro x hx hnone
      have := List.find?_eq_none.mp hfind x hx
      simp [hnone] at this
    rw [hfind] at hparse
    simp only at hparse
    have hmap := filterMap_all_some p.relations ids hall
    have hl : (ids.filterMap p.relations).length = ids.length := by
      have := congrArg List.length hmap
      simpa using this
    refine ⟨?_, ?_, ?_⟩
    · rw [hparse]
      simp only [finish, ParseResult.succeeds, true_iff]
      exact hall
    · intro _
      exact ⟨ids.filterMap p.relations, hl, hmap, hparse, by rw [hparse]; rfl⟩
    · rintro ⟨x, hx, hnone⟩
      exact absurd hnone (hall x hx)
  | some m =>
    have hm : m ∈ ids := List.mem_of_find?_eq_some hfind
    have hmn : p.relations m = none := by
      have := List.find?_some hfind
      simpa using this
    rw [hfind] at hparse
    simp only at hparse
    refine ⟨?_, ?_, ?_⟩
    · rw [hparse]
      simp only [finish, ParseResult.succeeds]
      constructor
      · intro h; cases h
      · intro h; exact absurd hmn (h m hm)
    · intro h
      exact absurd hmn (h m hm)
    · intro _
      exact ⟨.relationNotFound m, by rw [hparse]; rfl⟩

/-- The instance of C11: `public.accounts` is cached and listed twice. -/
theorem truncate_resolves_every_identifier_witness :
    ∃ rels : List RelationWalData,
      rels.length = ([16385, 16385] : List Int).length ∧
      rels.map some = [16385, 16385].map (NewWalParser.store 16385 accountsRelation).relations ∧
      parseTruncateWalData (NewWalParser.store 16385 accountsRelation)
          (be32 ([16385, 16385] : List Int).length ++ 1 :: ([16385, 16385].map be32).flatten)
        = .ok { Relations := rels, IsCascade := decide ((1 : Byte) = 1),
                IsRestartIdentity := decide ((1 : Byte) = 2) } ∧
      Parse (NewWalParser.store 16385 accountsRelation)
          ⟨0, Truncate :: (be32 ([16385, 16385] : List Int).length ++ 1 ::
            ([16385, 16385].map be32).flatten)⟩
        = .returned { Ty := Undefined, Value := some (Wal.truncate
            { Relations := rels, IsCascade := decide ((1 : Byte) = 1),
              IsRestartIdentity := decide ((1 : Byte) = 2) }) } none
            (NewWalParser.store 16385 accountsRelation) :=
  (truncate_resolves_every_identifier (NewWalParser.store 16385 accountsRelation) 0 1
    [16385, 16385] (by decide) (by decide)).2.1 (by decide)

/-- C12. A non-empty frame whose first byte is none of `B`, `C`, `R`, `I`,
`U`, `D`, `T` makes `Parse` return no error and an Undefined message that
holds the whole frame, tag byte included; the parser is unchanged. -/
theorem unknown_tag_is_undefined (p : WalParser) (lsn : LSN) (tag : Byte) (rest : Bytes)
    (hB : tag ≠ BeginWalType) (hC : tag ≠ CommitWalType) (hR : tag ≠ Relation)
    (hI : tag ≠ Insert) (hU : tag ≠ Update) (hD : tag ≠ Delete) (hT : tag ≠ Truncate) :
    Parse p ⟨lsn, tag :: rest⟩
      = .returned { Ty := Undefined,
                    Value := some (Wal.undefined { data := tag :: rest }) } none p := by
  simp only [Parse, if_neg hB, if_neg hC, if_neg hR, if_neg hI, if_neg hU, if_neg hD,
    if_neg hT, NewUndefinedWalData, finish]

/-- The instance of C12: the frame of the single byte `0x00`. -/
theorem unknown_tag_is_undefined_witness :
    Parse NewWalParser ⟨0, [0]⟩
      = .returned { Ty := Undefined, Value := some (Wal.undefined { data := [0] }) } none
          NewWalParser :=
  unknown_tag_is_undefined NewWalParser 0 0 [] (by decide) (by decide) (by decide)
    (by decide) (by decide) (by decide) (by decide)

theorem lookup_eq_none_of_keys {α β : Type} [BEq α] [LawfulBEq α] (k : α) :
    ∀ l : List (α × β), (∀ kv ∈ l, kv.1 ≠ k) → l.lookup k = none := by
  intro l
  induction l with
  | nil => intro _; rfl
  | cons kv l ih =>
    intro h
    obtain ⟨a, b⟩ := kv
    have ha : a ≠ k := h (a, b) (List.mem_cons_self _ _)
    have hne : (k == a) = false := by
      simp only [beq_eq_false_iff_ne, ne_eq]
      exact fun e => ha e.symm
    simp only [List.lookup, hne]
    exact ih (fun kv hkv => h kv (List.mem_cons_of_mem _ hkv))

theorem PgArrTypes_eq : PgArrTypes = (PgTypes.map (fun kv => (kv.2.ArrayTypeOid, kv.2.Oid))).reverse := by
  decide

set_option maxRecDepth 100000 in
theorem PgTypes_array_oids_nodup : (PgTypes.map (fun kv => kv.2.ArrayTypeOid)).Nodup := by
  decide

theorem PgTypes_array_oids_not_keys :
    ∀ kv ∈ PgTypes, PgTypes.lookup kv.2.ArrayTypeOid = none := by
  decide

/-- C13. `GetPgTypeById` is total and three-way. A key of `PgTypes` resolves
to its entry, whose `Oid` is the key, with `false`; the `ArrayTypeOid` of an
entry resolves to that entry with `true` (the array oids of the table are
pairwise distinct and none of them is a key); every other integer resolves
to `PgUnknownType` (oid 705, `unknown`) with `false`. So 1007 resolves to
`int4` and 1231 to `numeric`, both with `true`. -/
theorem GetPgTypeById_three_way :
    (∀ kv ∈ PgTypes, GetPgTypeById kv.1 = (kv.2, false) ∧ kv.2.Oid = kv.1) ∧
    (∀ kv ∈ PgTypes, GetPgTypeById kv.2.ArrayTypeOid = (kv.2, true)) ∧
    (∀ oid : Int, (∀ kv ∈ PgTypes, kv.1 ≠ oid ∧ kv.2.ArrayTypeOid ≠ oid) →
      GetPgTypeById oid = (PgUnknownType, false)) ∧
    (∀ oid : Int, (∃ kv ∈ PgTypes, GetPgTypeById oid = (kv.2, false) ∧ kv.1 = oid) ∨
      (∃ kv ∈ PgTypes, GetPgTypeById oid = (kv.2, true) ∧ kv.2.ArrayTypeOid = oid) ∨
      GetPgTypeById oid = (PgUnknownType, false)) ∧
    (PgTypes.map (fun kv => kv.2.ArrayTypeOid)).Nodup ∧
    (∀ kv ∈ PgTypes, PgTypes.lookup kv.2.ArrayTypeOid = none) ∧
    PgUnknownType.Oid = 705 ∧ PgUnknownType.Typname = "unknown" ∧
    (GetPgTypeById 1007).1.Typname = "int4" ∧ (GetPgTypeById 1007).2 = true ∧
    (GetPgTypeById 1231).1.Typname = "numeric" ∧ (GetPgTypeById 1231).2 = true := by
  have hkeys : ∀ kv ∈ PgTypes, GetPgTypeById kv.1 = (kv.2, false) ∧ kv.2.Oid = kv.1 := by
    decide
  have harr : ∀ kv ∈ PgTypes, GetPgTypeById kv.2.ArrayTypeOid = (kv.2, true) := by decide
  have hother : ∀ oid : Int, (∀ kv ∈ PgTypes, kv.1 ≠ oid ∧ kv.2.ArrayTypeOid ≠ oid) →
      GetPgTypeById oid = (PgUnknownType, false) := by
    intro oid h
    have h1 : PgTypes.lookup oid = none :=
      lookup_eq_none_of_keys oid PgTypes (fun kv hkv => (h kv hkv).1)
    have h2 : PgArrTypes.lookup oid = none := by
      apply lookup_eq_none_of_keys
      intro kv hkv
      rw [PgArrTypes_eq, List.mem_reverse, List.mem_map] at hkv
      obtain ⟨e, he, rfl⟩ := hkv
      exact (h e he).2
    simp only [GetPgTypeById, h1, h2]
  refine ⟨hkeys, harr, hother, ?_, PgTypes_array_oids_nodup, PgTypes_array_oids_not_keys,
    rfl, rfl, by decide, by decide, by decide, by decide⟩
  intro oid
  by_cases hk : ∃ kv ∈ PgTypes, kv.1 = oid
  · obtain ⟨kv, hkv, rfl⟩ := hk
    exact Or.inl ⟨kv, hkv, (hkeys kv hkv).1, rfl⟩
  · by_cases ha : ∃ kv ∈ PgTypes, kv.2.ArrayTypeOid = oid
    · obtain ⟨kv, hkv, rfl⟩ := ha
      exact Or.inr (Or.inl ⟨kv, hkv, harr kv hkv, rfl⟩)
    · refine Or.inr (Or.inr (hother oid ?_))
      intro kv hkv
      exact ⟨fun e => hk ⟨kv, hkv, e⟩, fun e => ha ⟨kv, hkv, e⟩⟩

/-- Whatever `Parse` returns, the `Type` field of the container is
`Undefined`: `ty` is initialised to `Undefined` and never assigned. -/
theorem Parse_type_undefined (p : WalParser) (xlog : XLogData) (wd : WalData)
    (err : Option Err) (p' : WalParser) (h : Parse p xlog = .returned wd err p') :
    wd.Ty = Undefined := by
  obtain ⟨lsn, data⟩ := xlog
  cases data with
  | nil => simp [Parse] at h
  | cons tag payload =>
    simp only [Parse] at h
    repeat' split at h
    all_goals first
      | (simp only [finish] at h; split at h <;> cases h <;> rfl)
      | (cases h; rfl)
      | (cases h)

/-- C15 (failing input). `Parse` of a Begin frame (`B` and 20 zero bytes)
returns the decoded Begin message with a nil error, but the `Type` field of
the container is `Undefined` (`-`), not `BeginWalType` (`B`): the variable
`ty` is set to `Undefined` at the top of `Parse` and no case assigns it. -/
theorem begin_frame_type_is_undefined :
    Parse NewWalParser ⟨0, BeginWalType :: List.replicate 20 0⟩
      = .returned { Ty := Undefined,
                    Value := some (Wal.begin { Lsn := 0, Timestamp := 0, XID := 0 }) }
          none NewWalParser ∧
    Undefined ≠ BeginWalType :=
  ⟨rfl, by decide⟩

/-- A frame of tag other than `R` leaves the parser as it was. -/
theorem Parse_not_relation (p : WalParser) (lsn : LSN) (tag : Byte) (payload : Bytes)
    (hR : tag ≠ Relation) (wd : WalData) (err : Option Err) (p' : WalParser)
    (h : Parse p ⟨lsn, tag :: payload⟩ = .returned wd err p') : p' = p := by
  simp only [Parse, if_neg hR] at h
  repeat' split at h
  all_goals (simp only [finish] at h; split at h <;> cases h <;> rfl)

/-- A call of `Parse` that returns an error leaves the parser as it was. -/
theorem Parse_error_keeps_state (p : WalParser) (xlog : XLogData) (wd : WalData) (e : Err)
    (p' : WalParser) (h : Parse p xlog = .returned wd (some e) p') : p' = p := by
  obtain ⟨lsn, data⟩ := xlog
  cases data with
  | nil => simp [Parse] at h
  | cons tag payload =>
    by_cases hR : tag = Relation
    · subst hR
      rw [Parse_relation] at h
      split at h <;> cases h
    · exact Parse_not_relation p lsn tag payload hR wd _ p' h

/-- C16. Cache mutation is confined to Relation frames and never goes with
an error: when `Parse` returns (does not panic) and either returns an error
or the frame's tag byte is not `R`, the parser, hence the relation cache,
is the one before the call. So the cache of a fresh parser stays empty along
every sequence of frames none of which has the tag `R`. -/
theorem cache_changes_only_on_relation (p : WalParser) (xlog : XLogData) (wd : WalData)
    (err : Option Err) (p' : WalParser) (h : Parse p xlog = .returned wd err p') :
    ((err ≠ none ∨ xlog.Data.head? ≠ some Relation) → p' = p ∧ p'.relations = p.relations) ∧
    (∀ (frames : List XLogData) (q : WalParser),
      (∀ x ∈ frames, x.Data.head? ≠ some Relation) →
      parseFrames NewWalParser frames = some q → q.relations = fun _ => none) := by
  constructor
  · intro hcase
    have hp : p' = p := by
      rcases hcase with herr | htag
      · cases err with
        | none => exact absurd rfl herr
        | some e => exact Parse_error_keeps_state p xlog wd e p' h
      · obtain ⟨lsn, data⟩ := xlog
        cases data with
        | nil => simp [Parse] at h
        | cons tag payload =>
          have hR : tag ≠ Relation := by
            intro e
            apply htag
            simp [e]
          exact Parse_not_relation p lsn tag payload hR wd err p' h
    exact ⟨hp, by rw [hp]⟩
  · intro frames
    suffices hgen : ∀ (s q : WalParser), (∀ x ∈ frames, x.Data.head? ≠ some Relation) →
        parseFrames s frames = some q → q = s by
      intro q hx hq
      rw [hgen NewWalParser q hx hq]
      rfl
    induction frames with
    | nil =>
      intro s q _ hq
      simp only [parseFrames] at hq
      cases hq
      rfl
    | cons x xs ih =>
      intro s q hx hq
      simp only [parseFrames] at hq
      split at hq
      · rename_i wd1 err1 s1 hpx
        have hs1 : s1 = s := by
          obtain ⟨lsn, data⟩ := x
          cases data with
          | nil => simp [Parse] at hpx
          | cons tag payload =>
            have hR : tag ≠ Relation := by
              intro e
              apply hx ⟨lsn, tag :: payload⟩ (List.mem_cons_self _ _)
              simp [e]
            exact Parse_not_relation s lsn tag payload hR wd1 err1 s1 hpx
        rw [hs1] at hq
        exact ih s q (fun y hy => hx y (List.mem_cons_of_mem _ hy)) hq
      · cases hq

/-- The instance of C16: an Insert frame for an unknown relation on a fresh
parser returns an error and leaves the cache empty. -/
theorem cache_changes_only_on_relation_witness :
    Parse NewWalParser ⟨0, Insert :: (be32 7 ++ 78 :: [0, 0])⟩
      = .returned { Ty := Undefined, Value := none } (some (.relationNotFound 7))
          NewWalParser ∧
    ((some (Err.relationNotFound 7) ≠ none ∨
        (XLogData.mk 0 (Insert :: (be32 7 ++ 78 :: [0, 0]))).Data.head? ≠ some Relation) →
      NewWalParser = NewWalParser ∧ NewWalParser.relations = NewWalParser.relations) :=
  ⟨rfl, (cache_changes_only_on_relation NewWalParser ⟨0, Insert :: (be32 7 ++ 78 :: [0, 0])⟩
    { Ty := Undefined, Value := none } (some (.relationNotFound 7)) NewWalParser (by rfl)).1⟩

theorem slice_ok (bs : Bytes) (lo hi : Int) (k n : Nat) (hlo : lo = k) (hhi : hi = lo + n)
    (hlen : k + n ≤ bs.length) : slice bs lo hi = .ok ((bs.drop k).take n) := by
  subst hlo hhi
  have h1 : ((k : Int) + n - k).toNat = n := by omega
  have h2 : (k : Int) + n ≤ bs.length := by omega
  simp [slice, h1, h2]

theorem length_slice_ok (bs : Bytes) (k n : Nat) (hlen : k + n ≤ bs.length) :
    ((bs.drop k).take n).length = n := by
  simp; omega

theorem read64 (bs : Bytes) (lo hi : Int) (k : Nat) (hlo : lo = k) (hhi : hi = lo + 8)
    (hlen : k + 8 ≤ bs.length) :
    (slice bs lo hi).bind toInt64 = .ok (int64Of ((bs.drop k).take 8)) := by
  have hl := length_slice_ok bs k 8 hlen
  rw [slice_ok bs lo hi k 8 hlo (by simp [hhi]) hlen, Res.ok_bind]
  unfold toInt64 int64Of
  rw [if_pos (by omega), List.take_of_length_le (by omega)]

theorem read32 (bs : Bytes) (lo hi : Int) (k : Nat) (hlo : lo = k) (hhi : hi = lo + 4)
    (hlen : k + 4 ≤ bs.length) :
    (slice bs lo hi).bind toInt32 = .ok (int32Of ((bs.drop k).take 4)) := by
  have hl := length_slice_ok bs k 4 hlen
  rw [slice_ok bs lo hi k 4 hlo (by simp [hhi]) hlen, Res.ok_bind]
  unfold toInt32 int32Of
  rw [if_pos (by omega), List.take_of_length_le (by omega)]

theorem take_drop_append {α : Type} (a x : List α) (k n : Nat) (h : k + n ≤ a.length) :
    ((a ++ x).drop k).take n = (a.drop k).take n := by
  rw [List.drop_append_of_le_length (by omega), List.take_append_of_le_length (by simp; omega)]

theorem beUint_lt (bs : Bytes) : beUint bs < 256 ^ bs.length := by
  induction bs using List.reverseRecOn with
  | nil => simp [beUint]
  | append_singleton l b ih =>
    rw [beUint_append, List.length_append, List.length_singleton, pow_succ]
    have := b.isLt
    omega

theorem LSN_ofInt64_toSigned (u : Nat) :
    (LSN.ofInt64 (toSigned 64 u) : Nat) = u % 2 ^ 64 := by
  have hlt : u % 2 ^ 64 < 2 ^ 64 := Nat.mod_lt _ (by positivity)
  unfold LSN.ofInt64 toSigned
  generalize u % 2 ^ 64 = v at hlt ⊢
  norm_num at hlt ⊢
  change @Eq Nat _ _
  split <;> omega

theorem LSN_ofInt64_int64Of (bs : Bytes) (h : bs.length = 8) :
    (LSN.ofInt64 (int64Of bs) : Nat) = beUint bs := by
  have := beUint_lt bs
  rw [h] at this
  rw [int64Of, LSN_ofInt64_toSigned, Nat.mod_eq_of_lt (by norm_num at this ⊢; exact this)]

theorem int64Of_range (bs : Bytes) : IsInt64 (int64Of bs) := by
  have := toSigned_range 64 (beUint bs) (by decide)
  unfold IsInt64 int64Of
  simpa using this

theorem int64Of_be64 (x : Int) (hx : IsInt64 x) : int64Of (be64 x) = x := by
  unfold int64Of be64
  rw [beUint_beNat]
  unfold IsInt64 at hx
  simp only [toSigned]
  norm_num
  split <;> omega

theorem int32Of_be32 (x : Int) (hx : IsInt32 x) : int32Of (be32 x) = x := by
  unfold int32Of be32
  rw [beUint_beNat]
  unfold IsInt32 at hx
  simp only [toSigned]
  norm_num
  split <;> omega

@[simp] theorem length_be64 (x : Int) : (be64 x).length = 8 := length_beNat _ _

/-- The value of `parseCommitWalData` on a body of at least 25 bytes. -/
theorem parseCommitWalData_value (p : WalParser) (body : Bytes) (hlen : 25 ≤ body.length) :
    parseCommitWalData p body
      = .ok { Flags := 0,
              LsnCommit := LSN.ofInt64 (int64Of ((body.drop 1).take 8)),
              LsnTransaction := LSN.ofInt64 (int64Of ((body.drop 9).take 8)),
              Timestamp := int64Of ((body.drop 17).take 8) } := by
  have h1 := read64 body sizeOfInt8 (sizeOfInt8 + sizeOfInt64) 1 rfl rfl (by omega)
  have h2 := read64 body (sizeOfInt8 + sizeOfInt64) (sizeOfInt8 + sizeOfInt64 + sizeOfInt64)
    9 rfl rfl (by omega)
  have h3 := read64 body (sizeOfInt8 + sizeOfInt64 + sizeOfInt64)
    (sizeOfInt8 + sizeOfInt64 + sizeOfInt64 + sizeOfInt64) 17 rfl rfl (by omega)
  simp only [parseCommitWalData, Res.bind_eq, h1, h2, h3, Res.ok_bind]

/-- The value of `parseBeginWalData` on a body of at least 20 bytes. -/
theorem parseBeginWalData_value (p : WalParser) (body : Bytes) (hlen : 20 ≤ body.length) :
    parseBeginWalData p body
      = .ok { Lsn := LSN.ofInt64 (int64Of (body.take 8)),
              Timestamp := int64Of ((body.drop 8).take 8),
              XID := int32Of ((body.drop 16).take 4) } := by
  have h1 := read64 body 0 sizeOfInt64 0 rfl rfl (by omega)
  have h2 := read64 body sizeOfInt64 (sizeOfInt64 + sizeOfInt64) 8 rfl rfl (by omega)
  have h3 := read32 body (sizeOfInt64 + sizeOfInt64) (sizeOfInt64 + sizeOfInt64 + sizeOfInt32)
    16 rfl rfl (by omega)
  simp only [parseBeginWalData, Res.bind_eq, h1, h2, h3, Res.ok_bind, List.drop_zero]

theorem beUint_int64Of (bs : Bytes) (h : bs.length = 8) :
    (0 ≤ int64Of bs → ((beUint bs : Nat) : Int) = int64Of bs) ∧
    (int64Of bs < 0 → ((beUint bs : Nat) : Int) = int64Of bs + 2 ^ 64) := by
  have hlt := beUint_lt bs
  rw [h] at hlt
  have hm : beUint bs % 2 ^ 64 = beUint bs := Nat.mod_eq_of_lt (by norm_num at hlt ⊢; exact hlt)
  unfold int64Of toSigned
  rw [hm]
  norm_num at hlt ⊢
  split <;> constructor <;> intro _ <;> omega

set_option maxRecDepth 100000 in
/-- C17 (counterexample). In the Commit body `00` · `FF`×8 · 0(8) · 0(8) the
bytes 1..8 have the signed 64-bit value -1, but `parseCommitWalData` returns
`LsnCommit` = 18446744073709551615 = 2^64 - 1: the signed value is converted
to the unsigned type `LSN`. -/
theorem commit_lsn_is_unsigned :
    parseCommitWalData NewWalParser ([0] ++ List.replicate 8 255 ++ be64 0 ++ be64 0)
      = .ok { Flags := 0, LsnCommit := 18446744073709551615, LsnTransaction := 0,
              Timestamp := 0 } ∧
    int64Of ((([0] ++ List.replicate 8 255 ++ be64 0 ++ be64 0 : Bytes).drop 1).take 8) = -1 ∧
    ((18446744073709551615 : Nat) : Int) ≠ -1 := by
  decide

/-- C17 (amended). On a Commit body of at least 25 bytes
`parseCommitWalData` succeeds with `LsnCommit` the big-endian unsigned 64-bit
value of bytes 1..8, `LsnTransaction` that of bytes 9..16, `Timestamp` the
big-endian signed 64-bit value of bytes 17..24 and `Flags` 0. Each LSN is
the signed value of its bytes when that is not negative and that value plus
2^64 otherwise. The reserved first byte is ignored: two bodies that differ
only in byte 0 decode to equal Commit messages. -/
theorem commit_layout (p : WalParser) (body : Bytes) (hlen : 25 ≤ body.length) :
    parseCommitWalData p body
      = .ok { Flags := 0,
              LsnCommit := beUint ((body.drop 1).take 8),
              LsnTransaction := beUint ((body.drop 9).take 8),
              Timestamp := int64Of ((body.drop 17).take 8) } ∧
    (∀ b0 : Byte, parseCommitWalData p (b0 :: body.drop 1) = parseCommitWalData p body) ∧
    (0 ≤ int64Of ((body.drop 1).take 8) →
      ((beUint ((body.drop 1).take 8) : Nat) : Int) = int64Of ((body.drop 1).take 8)) ∧
    (int64Of ((body.drop 1).take 8) < 0 →
      ((beUint ((body.drop 1).take 8) : Nat) : Int)
        = int64Of ((body.drop 1).take 8) + 2 ^ 64) ∧
    (0 ≤ int64Of ((body.drop 9).take 8) →
      ((beUint ((body.drop 9).take 8) : Nat) : Int) = int64Of ((body.drop 9).take 8)) ∧
    (int64Of ((body.drop 9).take 8) < 0 →
      ((beUint ((body.drop 9).take 8) : Nat) : Int)
        = int64Of ((body.drop 9).take 8) + 2 ^ 64) := by
  have hval : ∀ b : Bytes, 25 ≤ b.length → parseCommitWalData p b
      = .ok { Flags := 0, LsnCommit := beUint ((b.drop 1).take 8),
              LsnTransaction := beUint ((b.drop 9).take 8),
              Timestamp := int64Of ((b.drop 17).take 8) } := by
    intro b hb
    rw [parseCommitWalData_value p b hb, LSN_ofInt64_int64Of _ (by simp; omega),
      LSN_ofInt64_int64Of _ (by simp; omega)]
  have h1 := beUint_int64Of ((body.drop 1).take 8) (by simp; omega)
  have h2 := beUint_int64Of ((body.drop 9).take 8) (by simp; omega)
  refine ⟨hval body hlen, ?_, h1.1, h1.2, h2.1, h2.2⟩
  intro b0
  cases body with
  | nil => simp at hlen
  | cons b t =>
    rw [hval (b :: t) hlen, hval (b0 :: (b :: t).drop 1) (by simpa using hlen)]
    rfl

set_option maxRecDepth 100000 in
/-- The instance of C17 (amended): a body with reserved byte 9, the commit
LSN bytes `FF`×8, end LSN 259 and timestamp -1. -/
theorem commit_layout_witness :
    parseCommitWalData NewWalParser ([9] ++ be64 (-1) ++ be64 259 ++ be64 (-1))
      = .ok { Flags := 0, LsnCommit := 18446744073709551615, LsnTransaction := 259,
              Timestamp := -1 } ∧
    parseCommitWalData NewWalParser ([0] ++ be64 (-1) ++ be64 259 ++ be64 (-1))
      = parseCommitWalData NewWalParser ([9] ++ be64 (-1) ++ be64 259 ++ be64 (-1)) :=
  have h := commit_layout NewWalParser ([9] ++ be64 (-1) ++ be64 259 ++ be64 (-1)) (by simp)
  ⟨h.1, h.2.1 0⟩

/-- C18. On a Begin body of at least 20 bytes `parseBeginWalData` succeeds
with `Lsn` the big-endian 64-bit value of bytes 0..7, `Timestamp` the
big-endian signed 64-bit value of bytes 8..15 and `XID` the big-endian signed
32-bit value of bytes 16..19. Encoding a triple (lsn, timestamp, xid) in
that layout and decoding it returns the triple, and the bytes after the 20th
do not affect the result. -/
theorem begin_layout (p : WalParser) (body : Bytes) (hlen : 20 ≤ body.length) :
    parseBeginWalData p body
      = .ok { Lsn := beUint (body.take 8),
              Timestamp := int64Of ((body.drop 8).take 8),
              XID := int32Of ((body.drop 16).take 4) } ∧
    (∀ (lsn : Nat) (ts xid : Int) (extra : Bytes), lsn < 2 ^ 64 → IsInt64 ts → IsInt32 xid →
      parseBeginWalData p (beNat 8 lsn ++ be64 ts ++ be32 xid ++ extra)
        = .ok { Lsn := lsn, Timestamp := ts, XID := xid }) ∧
    (∀ extra : Bytes, parseBeginWalData p (body.take 20 ++ extra) = parseBeginWalData p body) := by
  have hval : ∀ b : Bytes, 20 ≤ b.length → parseBeginWalData p b
      = .ok { Lsn := beUint (b.take 8), Timestamp := int64Of ((b.drop 8).take 8),
              XID := int32Of ((b.drop 16).take 4) } := by
    intro b hb
    rw [parseBeginWalData_value p b hb, LSN_ofInt64_int64Of _ (by simp; omega)]
  refine ⟨hval body hlen, ?_, ?_⟩
  · intro lsn ts xid extra hlsn hts hxid
    have h8 : (beNat 8 lsn).length = 8 := length_beNat _ _
    rw [hval _ (by simp [h8]; omega)]
    have e1 : (beNat 8 lsn ++ be64 ts ++ be32 xid ++ extra).take 8 = beNat 8 lsn := by
      simp [List.take_append_eq_append_take, h8]
    have e2 : ((beNat 8 lsn ++ be64 ts ++ be32 xid ++ extra).drop 8).take 8 = be64 ts := by
      simp [List.drop_append_eq_append_drop, List.take_append_eq_append_take, h8]
    have e3 : ((beNat 8 lsn ++ be64 ts ++ be32 xid ++ extra).drop 16).take 4 = be32 xid := by
      simp [List.drop_append_eq_append_drop, List.take_append_eq_append_take, h8]
    rw [e1, e2, e3, beUint_beNat, int64Of_be64 ts hts, int32Of_be32 xid hxid,
      Nat.mod_eq_of_lt (by norm_num at hlsn ⊢; exact hlsn)]
  · intro extra
    have hl : (body.take 20).length = 20 := by simp; omega
    rw [hval body hlen, hval _ (by simp [hl])]
    have hsplit : body = body.take 20 ++ body.drop 20 := (List.take_append_drop 20 body).symm
    have e1 : (body.take 20 ++ extra).take 8 = body.take 8 := by
      conv_rhs => rw [hsplit]
      rw [List.take_append_of_le_length (by omega), List.take_append_of_le_length (by omega)]
    have e2 : ((body.take 20 ++ extra).drop 8).take 8 = (body.drop 8).take 8 := by
      conv_rhs => rw [hsplit]
      rw [take_drop_append _ _ 8 8 (by omega), take_drop_append _ _ 8 8 (by omega)]
    have e3 : ((body.take 20 ++ extra).drop 16).take 4 = (body.drop 16).take 4 := by
      conv_rhs => rw [hsplit]
      rw [take_drop_append _ _ 16 4 (by omega), take_drop_append _ _ 16 4 (by omega)]
    rw [e1, e2, e3]

/-- The instance of C18: LSN 258, timestamp 7 and the xid bytes
`FF FF FF FF`, which decode to -1, followed by two more bytes. -/
theorem begin_layout_witness :
    be32 (-1) = [255, 255, 255, 255] ∧
    parseBeginWalData NewWalParser (beNat 8 258 ++ be64 7 ++ be32 (-1) ++ [1, 2])
      = .ok { Lsn := 258, Timestamp := 7, XID := -1 } :=
  ⟨by decide,
    (begin_layout NewWalParser (beNat 8 258 ++ be64 7 ++ be32 (-1) ++ [1, 2])
      (by simp [length_beNat])).2.1 258 7 (-1) [1, 2] (by decide) (by decide) (by decide)⟩

theorem toStringLoop_no_zero (bs : Bytes) :
    ∀ (rest : Bytes) (k : Nat), (0 : Byte) ∉ rest → toStringLoop bs rest k = ([], 0) := by
  intro rest
  induction rest with
  | nil => intro k _; rfl
  | cons b rest ih =>
    intro k h
    have hb : b ≠ 0 := fun e => h (by simp [e])
    have hr : (0 : Byte) ∉ rest := fun e => h (List.mem_cons_of_mem _ e)
    simp only [toStringLoop, if_neg hb]
    exact ih (k + 1) hr

theorem toStringLoop_terminated (c : Bytes) :
    ∀ (a pre bs : Bytes), (0 : Byte) ∉ a → bs = pre ++ a ++ 0 :: c →
      toStringLoop bs (a ++ 0 :: c) pre.length = (pre ++ a, (pre.length : Int) + a.length + 1) := by
  intro a
  induction a with
  | nil =>
    intro pre bs _ hbs
    simp [toStringLoop, hbs]
  | cons b a ih =>
    intro pre bs h hbs
    have hb : b ≠ 0 := fun e => h (by simp [e])
    have ha : (0 : Byte) ∉ a := fun e => h (List.mem_cons_of_mem _ e)
    have hrec := ih (pre ++ [b]) bs ha (by simp [hbs])
    simp only [List.cons_append, toStringLoop, if_neg hb]
    simp only [List.length_append, List.length_singleton] at hrec
    show toStringLoop bs (a ++ 0 :: c) (pre.length + 1) = _
    rw [hrec]
    refine Prod.ext (by simp) ?_
    simp only [List.length_cons]
    push_cast
    omega

/-- The decoder on a terminated text: the text and its length plus one. -/
theorem toString_terminated (a c : Bytes) (h : (0 : Byte) ∉ a) :
    toString (a ++ 0 :: c) = (a, (a.length : Int) + 1) := by
  have := toStringLoop_terminated c a [] (a ++ 0 :: c) h (by simp)
  simpa [toString] using this

/-- The decoder on a slice without a zero byte: the empty text, nothing
consumed. -/
theorem toString_no_zero (bs : Bytes) (h : (0 : Byte) ∉ bs) : toString bs = ([], 0) :=
  toStringLoop_no_zero bs bs 0 h

theorem first_zero_split :
    ∀ bs : Bytes, (0 : Byte) ∈ bs → ∃ a c, bs = a ++ 0 :: c ∧ (0 : Byte) ∉ a := by
  intro bs
  induction bs with
  | nil => intro h; simp at h
  | cons b bs ih =>
    intro h
    by_cases hb : b = 0
    · exact ⟨[], bs, by simp [hb], by simp⟩
    · have hmem : (0 : Byte) ∈ bs := by
        rcases List.mem_cons.mp h with e | e
        · exact absurd e.symm hb
        · exact e
      obtain ⟨a, c, hac, ha⟩ := ih hmem
      refine ⟨b :: a, c, by simp [hac], ?_⟩
      intro e
      rcases List.mem_cons.mp e with e | e
      · exact hb e.symm
      · exact ha e

theorem indexOf_first_zero (c : Bytes) :
    ∀ a : Bytes, (0 : Byte) ∉ a → (a ++ 0 :: c).indexOf 0 = a.length := by
  intro a
  induction a with
  | nil => intro _; simp [List.indexOf_cons]
  | cons b a ih =>
    intro h
    have hb : b ≠ 0 := fun e => h (by simp [e])
    have ha : (0 : Byte) ∉ a := fun e => h (List.mem_cons_of_mem _ e)
    simp [List.indexOf_cons, hb, ih ha]

/-- C20. `toString` equals its reference definition. When `bs` contains a
zero byte and `i` is the index of the first one, `toString bs` is the text
`bs[0..i)` and the count `i + 1`: the text has no zero byte and excludes the
terminator, the count `n` includes it, `1 ≤ n ≤ len(bs)`, and `bs[n..]` is
what follows the terminator. When `bs` has no zero byte (the empty slice
included) it returns the empty text and the count 0. -/
theorem toString_meets_reference (bs : Bytes) :
    toString bs = toStringSpec bs ∧
    ((0 : Byte) ∈ bs →
      bs.indexOf 0 < bs.length ∧ bs[bs.indexOf 0]? = some 0 ∧
      (0 : Byte) ∉ bs.take (bs.indexOf 0) ∧
      toString bs = (bs.take (bs.indexOf 0), (bs.indexOf 0 : Int) + 1) ∧
      (0 : Byte) ∉ (toString bs).1 ∧
      1 ≤ (toString bs).2 ∧ (toString bs).2 ≤ bs.length ∧
      bs = (toString bs).1 ++ 0 :: bs.drop (toString bs).2.toNat) ∧
    ((0 : Byte) ∉ bs → toString bs = ([], 0)) := by
  by_cases h : (0 : Byte) ∈ bs
  · obtain ⟨a, c, rfl, ha⟩ := first_zero_split bs h
    have hidx := indexOf_first_zero c a ha
    have hts := toString_terminated a c ha
    have htake : (a ++ 0 :: c).take a.length = a := by simp
    have hdrop : (a ++ 0 :: c).drop (a.length + 1) = c := by
      rw [show a ++ 0 :: c = (a ++ [0]) ++ c by simp]
      rw [List.drop_append_of_le_length (by simp)]
      simp
    have htoNat : ((a.length : Int) + 1).toNat = a.length + 1 := by omega
    refine ⟨?_, fun _ => ⟨?_, ?_, ?_, ?_, ?_, ?_, ?_, ?_⟩, fun h' => absurd h h'⟩
    · simp only [toStringSpec, if_pos h, hidx, htake, hts]
    · rw [hidx]; simp
    · rw [hidx]; simp [List.getElem_append_right]
    · rw [hidx, htake]; exact ha
    · rw [hts, hidx, htake]
    · rw [hts]; exact ha
    · rw [hts]; simp only; omega
    · rw [hts]; simp only [List.length_append, List.length_cons]; omega
    · rw [hts]; simp only; rw [htoNat, hdrop]
  · refine ⟨?_, fun h' => absurd h' h, fun _ => toString_no_zero bs h⟩
    simp only [toStringSpec, if_neg h, toString_no_zero bs h]

theorem sliceFrom_of_eq (bs pre post : Bytes) (h : bs = pre ++ post) (lo : Int)
    (hlo : lo = pre.length) : sliceFrom bs lo = .ok post := by
  subst h; exact sliceFrom_append _ _ _ hlo

theorem encodeColumns_cons (c : ColumnWire) (cs : List ColumnWire) :
    encodeColumns (c :: cs) = c.encode ++ encodeColumns cs := by
  simp [encodeColumns]

theorem toBool_flag (flag : Bool) :
    toBool [if flag then 1 else 0] = .ok flag := by
  cases flag <;> simp [toBool]

/-- The loop of `parseRelationWalData` on well-formed columns. -/
theorem relationLoop_columns (post : Bytes) (cols : List ColumnWire)
    (hwf : ∀ c ∈ cols, c.WF) :
    ∀ (data pre : Bytes) (offset : Int) (acc : List RelationColumn),
      data = pre ++ encodeColumns cols ++ post → offset = pre.length →
      relationLoop data cols.length offset acc
        = .ok (acc ++ cols.map ColumnWire.toColumn) := by
  induction cols with
  | nil => intros; simp [relationLoop]
  | cons c cs ih =>
    intro data pre offset acc hdata hoff
    obtain ⟨hname, hoid, hmod⟩ := hwf c (List.mem_cons_self _ _)
    have hwf' : ∀ d ∈ cs, d.WF := fun d hd => hwf d (List.mem_cons_of_mem _ hd)
    rw [encodeColumns_cons] at hdata
    have hflag : (slice data offset (offset + sizeOfBool)).bind toBool = .ok c.flag := by
      rw [slice_of_eq data pre [if c.flag then 1 else 0]
        (c.name ++ [0] ++ be32 c.oid ++ be32 c.modifier ++ encodeColumns cs ++ post)
        (by simp [hdata, ColumnWire.encode]) _ _ hoff (by simp), Res.ok_bind]
      exact toBool_flag c.flag
    have hrest : sliceFrom data (offset + sizeOfBool)
        = .ok (c.name ++ 0 :: (be32 c.oid ++ be32 c.modifier ++ encodeColumns cs ++ post)) :=
      sliceFrom_of_eq data (pre ++ [if c.flag then 1 else 0]) _
        (by simp [hdata, ColumnWire.encode]) _ (by simp [hoff])
    have hstr := toString_terminated c.name
      (be32 c.oid ++ be32 c.modifier ++ encodeColumns cs ++ post) hname
    have hoidr : (slice data (offset + sizeOfBool + ((c.name.length : Int) + 1))
        (offset + sizeOfBool + ((c.name.length : Int) + 1) + sizeOfInt32)).bind toInt32
        = .ok c.oid := by
      rw [slice_of_eq data (pre ++ [if c.flag then 1 else 0] ++ c.name ++ [0]) (be32 c.oid)
        (be32 c.modifier ++ encodeColumns cs ++ post)
        (by simp [hdata, ColumnWire.encode]) _ _ (by simp [hoff, sizeOfBool, sizeOfInt32]; omega) (by simp),
        Res.ok_bind]
      exact toInt32_be32 _ hoid
    have hmodr : (slice data (offset + sizeOfBool + ((c.name.length : Int) + 1) + sizeOfInt32)
        (offset + sizeOfBool + ((c.name.length : Int) + 1) + sizeOfInt32 + sizeOfInt32)).bind
        toInt32 = .ok c.modifier := by
      rw [slice_of_eq data (pre ++ [if c.flag then 1 else 0] ++ c.name ++ [0] ++ be32 c.oid)
        (be32 c.modifier) (encodeColumns cs ++ post)
        (by simp [hdata, ColumnWire.encode]) _ _ (by simp [hoff, sizeOfBool, sizeOfInt32]; omega) (by simp),
        Res.ok_bind]
      exact toInt32_be32 _ hmod
    have hrec := ih hwf' data
      (pre ++ [if c.flag then 1 else 0] ++ c.name ++ [0] ++ be32 c.oid ++ be32 c.modifier)
      (offset + sizeOfBool + ((c.name.length : Int) + 1) + sizeOfInt32 + sizeOfInt32)
      (acc ++ [c.toColumn]) (by simp [hdata, ColumnWire.encode]) (by simp [hoff, sizeOfBool, sizeOfInt32]; omega)
    simp only [List.length_cons, relationLoop, Res.bind_eq, hflag, Res.ok_bind, hrest, hstr,
      hoidr, hmodr]
    simpa [ColumnWire.toColumn] using hrec

/-- The value of `parseRelationWalData` on a well-formed Relation body. -/
theorem parseRelationWalData_encode (p : WalParser) (id : Int) (hid : IsInt32 id)
    (ns name : Bytes) (hns : (0 : Byte) ∉ ns) (hname : (0 : Byte) ∉ name) (repl : Byte)
    (cols : List ColumnWire) (hcols : ∀ c ∈ cols, c.WF) (hn : cols.length < 2 ^ 15) :
    parseRelationWalData p (encodeRelation id ns name repl cols)
      = .ok { ID := id, Namespace := ns, RelationName := name,
              RelReplIdent := toSigned 8 repl.val, ColumnsNum := cols.length,
              Columns := cols.map ColumnWire.toColumn } := by
  generalize hdata : encodeRelation id ns name repl cols = data
  have hd : data = be32 id ++ ns ++ [0] ++ name ++ [0] ++ [repl] ++ be16 cols.length
      ++ encodeColumns cols := by rw [← hdata]; rfl
  have h1 : (slice data 0 sizeOfInt32).bind toInt32 = .ok id := by
    rw [slice_of_eq data [] (be32 id)
      (ns ++ [0] ++ name ++ [0] ++ [repl] ++ be16 cols.length ++ encodeColumns cols)
      (by rw [hd]; simp) _ _ (by simp) (by simp),
      Res.ok_bind]
    exact toInt32_be32 _ hid
  have h2 : sliceFrom data (0 + sizeOfInt32)
      = .ok (ns ++ 0 :: (name ++ [0] ++ [repl] ++ be16 cols.length ++ encodeColumns cols)) :=
    sliceFrom_of_eq data (be32 id) _ (by rw [hd]; simp) _ (by simp)
  have h3 := toString_terminated ns
    (name ++ [0] ++ [repl] ++ be16 cols.length ++ encodeColumns cols) hns
  have h4 : sliceFrom data (0 + sizeOfInt32 + ((ns.length : Int) + 1))
      = .ok (name ++ 0 :: ([repl] ++ be16 cols.length ++ encodeColumns cols)) :=
    sliceFrom_of_eq data (be32 id ++ ns ++ [0]) _ (by rw [hd]; simp) _
      (by simp [sizeOfInt32])
  have h5 := toString_terminated name ([repl] ++ be16 cols.length ++ encodeColumns cols) hname
  have h6 : (slice data (0 + sizeOfInt32 + ((ns.length : Int) + 1) + ((name.length : Int) + 1))
      (0 + sizeOfInt32 + ((ns.length : Int) + 1) + ((name.length : Int) + 1) + sizeOfInt8)).bind
      toInt8 = .ok (toSigned 8 repl.val) := by
    rw [slice_of_eq data (be32 id ++ ns ++ [0] ++ name ++ [0]) [repl]
      (be16 cols.length ++ encodeColumns cols) (by rw [hd]; simp) _ _
      (by simp [sizeOfInt32]; omega) (by simp), Res.ok_bind]
    rfl
  have h7 : (slice data
      (0 + sizeOfInt32 + ((ns.length : Int) + 1) + ((name.length : Int) + 1) + sizeOfInt8)
      (0 + sizeOfInt32 + ((ns.length : Int) + 1) + ((name.length : Int) + 1) + sizeOfInt8
        + sizeOfInt16)).bind toInt16 = .ok (cols.length : Int) := by
    rw [slice_of_eq data (be32 id ++ ns ++ [0] ++ name ++ [0] ++ [repl]) (be16 cols.length)
      (encodeColumns cols) (by rw [hd]) _ _
      (by simp [sizeOfInt32, sizeOfInt8]; omega) (by simp), Res.ok_bind]
    exact toInt16_be16 _ (by omega)
  have h8 := relationLoop_columns [] cols hcols data
    (be32 id ++ ns ++ [0] ++ name ++ [0] ++ [repl] ++ be16 cols.length)
    (0 + sizeOfInt32 + ((ns.length : Int) + 1) + ((name.length : Int) + 1) + sizeOfInt8
        + sizeOfInt16) [] (by rw [hd]; simp)
    (by simp [sizeOfInt32, sizeOfInt8, sizeOfInt16]; omega)
  have hnn : ¬ ((cols.length : Int) < 0) := by omega
  simp only [parseRelationWalData, Res.bind_eq, h1, Res.ok_bind, h2, h3, h4, h5, h6, h7,
    if_neg hnn, Int.toNat_ofNat, h8, List.nil_append]

/-- C14. Relation decoding inverts the wire layout. For an `int32` id, a
namespace and a table name without zero byte, a replica-identity byte and
fewer than 2^15 columns (flag 0 or 1, name without zero byte, `int32` oid and
modifier), `parseRelationWalData` on id(4) · namespace · 0 · name · 0 ·
replica-identity(1) · count(2) · per column [flag(1) · name · 0 · oid(4) ·
modifier(4)] returns the descriptor with that `ID`, `Namespace`,
`RelationName`, the replica-identity byte read as an `int8`, `ColumnsNum` the
number of columns, and the columns in order with their `Flag`, `Name`,
`Modifier` and `(Type, IsArray) = GetPgTypeById(oid)`. A column of the
catalog-unknown oid 999999 gets the type name `unknown` and `IsArray` false. -/
theorem relation_decoding_inverts_layout (p : WalParser) (id : Int) (hid : IsInt32 id)
    (ns name : Bytes) (hns : (0 : Byte) ∉ ns) (hname : (0 : Byte) ∉ name) (repl : Byte)
    (cols : List ColumnWire) (hcols : ∀ c ∈ cols, c.WF) (hn : cols.length < 2 ^ 15) :
    parseRelationWalData p (encodeRelation id ns name repl cols)
      = .ok { ID := id, Namespace := ns, RelationName := name,
              RelReplIdent := toSigned 8 repl.val, ColumnsNum := cols.length,
              Columns := cols.map ColumnWire.toColumn } ∧
    (repl.val < 128 → toSigned 8 repl.val = repl.val) ∧
    (∀ c : ColumnWire, c.toColumn.Flag = c.flag ∧ c.toColumn.Name = c.name ∧
      c.toColumn.Modifier = c.modifier ∧
      (c.toColumn.Ty, c.toColumn.IsArray) = GetPgTypeById c.oid) ∧
    (∀ c : ColumnWire, c.oid = 999999 →
      c.toColumn.Ty.Typname = "unknown" ∧ c.toColumn.IsArray = false) := by
  refine ⟨parseRelationWalData_encode p id hid ns name hns hname repl cols hcols hn, ?_,
    fun c => ⟨rfl, rfl, rfl, rfl⟩, ?_⟩
  · intro h
    have hlt := repl.isLt
    unfold toSigned
    norm_num
    omega
  · intro c hc
    have h : GetPgTypeById 999999 = (PgUnknownType, false) := by decide
    simp [ColumnWire.toColumn, hc, h, PgUnknownType]

/-- The instance of C14: the body of `public.accounts` and a body with one
column of the unknown oid 999999. -/
theorem relation_decoding_inverts_layout_witness :
    encodeRelation 16385 (str "public") (str "accounts") 100
        [⟨true, str "id", 23, -1⟩, ⟨false, str "balance", 1700, -1⟩] = accountsBody ∧
    parseRelationWalData NewWalParser accountsBody = .ok accountsRelation ∧
    parseRelationWalData NewWalParser
        (encodeRelation 5 (str "s") (str "t") 100 [⟨false, str "c", 999999, -1⟩])
      = .ok { ID := 5, Namespace := str "s", RelationName := str "t", RelReplIdent := 100,
              ColumnsNum := 1,
              Columns := [{ Flag := false, Modifier := -1, Name := str "c",
                            Ty := PgUnknownType, IsArray := false }] } :=
  ⟨by decide,
    (relation_decoding_inverts_layout NewWalParser 16385 (by decide) (str "public")
      (str "accounts") (by decide) (by decide) 100
      [⟨true, str "id", 23, -1⟩, ⟨false, str "balance", 1700, -1⟩] (by decide) (by decide)).1,
    (relation_decoding_inverts_layout NewWalParser 5 (by decide) (str "s") (str "t")
      (by decide) (by decide) 100 [⟨false, str "c", 999999, -1⟩] (by decide) (by decide)).1⟩

theorem sliceFrom_ok (bs : Bytes) (lo : Int) (k : Nat) (hlo : lo = k) (hlen : k ≤ bs.length) :
    sliceFrom bs lo = .ok (bs.drop k) := by
  subst hlo
  simp [sliceFrom, hlen]

theorem readBool_ok (bs : Bytes) (lo hi : Int) (k : Nat) (hlo : lo = k) (hhi : hi = lo + 1)
    (hlen : k + 1 ≤ bs.length) : ∃ b, (slice bs lo hi).bind toBool = .ok b := by
  have hl := length_slice_ok bs k 1 hlen
  rw [slice_ok bs lo hi k 1 hlo (by simp [hhi]) hlen, Res.ok_bind]
  cases hs : (bs.drop k).take 1 with
  | nil => rw [hs] at hl; simp at hl
  | cons b t => exact ⟨decide (b = 1), rfl⟩

theorem no_zero_drop (data : Bytes) (hz : (0 : Byte) ∉ data.drop 4) (o : Nat) (ho : 4 ≤ o) :
    (0 : Byte) ∉ data.drop o := by
  intro h
  apply hz
  have e : data.drop o = (data.drop 4).drop (o - 4) := by
    rw [List.drop_drop]; congr 1; omega
  rw [e] at h
  exact List.mem_of_mem_drop h

/-- The loop of `parseRelationWalData` on data without a zero byte after the
identifier: every column name decodes to the empty text and consumes
nothing, an iteration reads 9 bytes, and `k` iterations succeed when `9 × k`
bytes are left. -/
theorem relationLoop_no_zero (data : Bytes) (hz : (0 : Byte) ∉ data.drop 4) :
    ∀ (k o : Nat) (offset : Int) (acc : List RelationColumn), offset = o → 4 ≤ o →
      o + 9 * k ≤ data.length →
      ∃ cols, relationLoop data k offset acc = .ok (acc ++ cols) ∧ cols.length = k ∧
        ∀ c ∈ cols, c.Name = [] := by
  intro k
  induction k with
  | zero =>
    intro o offset acc _ _ _
    exact ⟨[], by simp [relationLoop], rfl, by simp⟩
  | succ k ih =>
    intro o offset acc hoff ho hlen
    have hsize : sizeOfBool = 1 ∧ sizeOfInt32 = 4 := ⟨rfl, rfl⟩
    obtain ⟨flag, hflag⟩ := readBool_ok data offset (offset + sizeOfBool) o hoff rfl (by omega)
    have hsf : sliceFrom data (offset + sizeOfBool) = .ok (data.drop (o + 1)) :=
      sliceFrom_ok data _ (o + 1) (by rw [hoff, hsize.1]; push_cast; rfl) (by omega)
    have hts : toString (data.drop (o + 1)) = ([], 0) :=
      toString_no_zero _ (no_zero_drop data hz (o + 1) (by omega))
    have hoid := read32 data (offset + sizeOfBool + 0) (offset + sizeOfBool + 0 + sizeOfInt32)
      (o + 1) (by rw [hoff, hsize.1]; push_cast; omega) rfl (by omega)
    have hmod := read32 data (offset + sizeOfBool + 0 + sizeOfInt32)
      (offset + sizeOfBool + 0 + sizeOfInt32 + sizeOfInt32)
      (o + 5) (by rw [hoff, hsize.1, hsize.2]; push_cast; omega) rfl (by omega)
    obtain ⟨col, hcol, hcn⟩ : ∃ col : RelationColumn,
        col = { Flag := flag, Modifier := int32Of ((data.drop (o + 5)).take 4), Name := [],
                Ty := (GetPgTypeById (int32Of ((data.drop (o + 1)).take 4))).1,
                IsArray := (GetPgTypeById (int32Of ((data.drop (o + 1)).take 4))).2 } ∧
        col.Name = [] := ⟨_, rfl, rfl⟩
    obtain ⟨cols, hok, hl, hnames⟩ := ih (o + 9)
      (offset + sizeOfBool + 0 + sizeOfInt32 + sizeOfInt32) (acc ++ [col])
      (by rw [hoff, hsize.1, hsize.2]; push_cast; omega) (by omega) (by omega)
    refine ⟨col :: cols, ?_, by simp [hl], ?_⟩
    · simp only [relationLoop, Res.bind_eq, hflag, Res.ok_bind, hsf, hts, hoid, hmod]
      rw [← hcol, hok]
      simp
    · intro c hc
      rcases List.mem_cons.mp hc with e | e
      · rw [e, hcn]
      · exact hnames c e

/-- The value of `parseRelationWalData` on a body whose bytes after the
identifier have no zero byte and are enough for the announced columns:
`toString` yields the empty text twice, the first byte is the replica
identity, the next two the count `n`, and `9 × n` bytes are read as columns
of empty name. -/
theorem parseRelationWalData_no_zero (p : WalParser) (id : Int) (hid : IsInt32 id)
    (r0 c1 c2 : Byte) (tail : Bytes) (hz : (0 : Byte) ∉ r0 :: c1 :: c2 :: tail)
    (h0 : 0 ≤ toSigned 16 (beUint [c1, c2]))
    (hlen9 : 9 * toSigned 16 (beUint [c1, c2]) ≤ tail.length) :
    ∃ cols, parseRelationWalData p (be32 id ++ r0 :: c1 :: c2 :: tail)
        = .ok { ID := id, Namespace := [], RelationName := [],
                RelReplIdent := toSigned 8 r0.val,
                ColumnsNum := toSigned 16 (beUint [c1, c2]), Columns := cols } ∧
      (cols.length : Int) = toSigned 16 (beUint [c1, c2]) ∧ ∀ c ∈ cols, c.Name = [] := by
  generalize hdata : be32 id ++ r0 :: c1 :: c2 :: tail = data
  have hlen : data.length = 7 + tail.length := by rw [← hdata]; simp; omega
  have hdrop : data.drop 4 = r0 :: c1 :: c2 :: tail := by
    rw [← hdata, List.drop_append_of_le_length (by simp)]
    simp [List.drop_eq_nil_of_le]
  have hz4 : (0 : Byte) ∉ data.drop 4 := by rw [hdrop]; exact hz
  have h1 : (slice data 0 sizeOfInt32).bind toInt32 = .ok id := by
    rw [slice_of_eq data [] (be32 id) (r0 :: c1 :: c2 :: tail) (by rw [← hdata]; simp)
      _ _ (by simp) (by simp), Res.ok_bind]
    exact toInt32_be32 _ hid
  have h2 : sliceFrom data (0 + sizeOfInt32) = .ok (data.drop 4) :=
    sliceFrom_ok data _ 4 rfl (by omega)
  have h3 : toString (data.drop 4) = ([], 0) := toString_no_zero _ hz4
  have h4 : sliceFrom data (0 + sizeOfInt32 + 0) = .ok (data.drop 4) :=
    sliceFrom_ok data _ 4 rfl (by omega)
  have h5 : (slice data (0 + sizeOfInt32 + 0 + 0) (0 + sizeOfInt32 + 0 + 0 + sizeOfInt8)).bind
      toInt8 = .ok (toSigned 8 r0.val) := by
    rw [slice_of_eq data (be32 id) [r0] (c1 :: c2 :: tail) (by rw [← hdata]; simp)
      _ _ (by simp) (by simp), Res.ok_bind]
    rfl
  have h6 : (slice data (0 + sizeOfInt32 + 0 + 0 + sizeOfInt8)
      (0 + sizeOfInt32 + 0 + 0 + sizeOfInt8 + sizeOfInt16)).bind toInt16
      = .ok (toSigned 16 (beUint [c1, c2])) := by
    rw [slice_of_eq data (be32 id ++ [r0]) [c1, c2] tail (by rw [← hdata]; simp)
      _ _ (by simp; rfl) (by simp), Res.ok_bind]
    rfl
  simp only [parseRelationWalData, Res.bind_eq, h1, Res.ok_bind, h2, h3, h4, h5, h6]
  generalize toSigned 16 (beUint [c1, c2]) = n at h0 hlen9 ⊢
  rw [if_neg (by omega)]
  obtain ⟨cols, hok, hl, hnames⟩ := relationLoop_no_zero data hz4 n.toNat 7
    (0 + sizeOfInt32 + 0 + 0 + sizeOfInt8 + sizeOfInt16) [] (by decide) (by omega) (by omega)
  refine ⟨cols, ?_, by omega, hnames⟩
  rw [hok]
  simp

/-- C19 (failing input). The Relation frame `R` · id 1 · 2316 bytes of value
1 has no zero byte after the identifier, so neither name is terminated, yet
`Parse` succeeds: `toString` returns the empty text and the count 0, which
`parseRelationWalData` does not check, the count bytes `01 01` give 257
columns of 9 bytes each, and the descriptor is stored in the cache. -/
theorem unterminated_relation_succeeds :
    (0 : Byte) ∉ (1 :: 1 :: 1 :: List.replicate 2313 (1 : Byte)) ∧
    ∃ r, Parse NewWalParser
          ⟨0, Relation :: (be32 1 ++ 1 :: 1 :: 1 :: List.replicate 2313 (1 : Byte))⟩
        = .returned { Ty := Undefined, Value := some (Wal.relation r) } none
            (NewWalParser.store 1 r) ∧
      (NewWalParser.store 1 r).relations 1 = some r ∧
      r.Namespace = [] ∧ r.RelationName = [] ∧ r.ColumnsNum = 257 := by
  have h01 : (0 : Byte) ≠ 1 := by decide
  have hz : (0 : Byte) ∉ (1 :: 1 :: 1 :: List.replicate 2313 (1 : Byte)) := by
    intro h
    rcases List.mem_cons.mp h with e | h
    · exact h01 e
    · rcases List.mem_cons.mp h with e | h
      · exact h01 e
      · rcases List.mem_cons.mp h with e | h
        · exact h01 e
        · exact h01 (List.eq_of_mem_replicate h)
  have hn : toSigned 16 (beUint [(1 : Byte), 1]) = 257 := by decide
  obtain ⟨cols, hok, -, -⟩ := parseRelationWalData_no_zero NewWalParser 1 (by decide) 1 1 1
    (List.replicate 2313 1) hz (by rw [hn]; decide) (by rw [hn, List.length_replicate]; decide)
  refine ⟨hz, { ID := 1, Namespace := [], RelationName := [],
                RelReplIdent := toSigned 8 (1 : Byte).val,
                ColumnsNum := toSigned 16 (beUint [(1 : Byte), 1]), Columns := cols },
    ?_, ?_, rfl, rfl, hn⟩
  · rw [Parse_relation, hok]
  · simp [WalParser.store]

theorem index_ok_getElem {α : Type} (xs : List α) (i : Int) (x : α)
    (h : index xs i = .ok x) : 0 ≤ i ∧ xs[i.toNat]? = some x := by
  unfold index at h
  split at h
  · rename_i h0
    refine ⟨h0, ?_⟩
    split at h
    · rename_i y hy
      cases h
      simpa using hy
    · cases h
  · cases h

theorem index_in_range {α : Type} (xs : List α) (i : Int) (h0 : 0 ≤ i)
    (hlt : i < xs.length) : ∃ x, index xs i = .ok x := by
  have hn : i.toNat < xs.length := by omega
  refine ⟨xs[i.toNat], ?_⟩
  unfold index
  rw [if_pos h0]
  simp [List.getElem?_eq_getElem hn]

/-- C21. In a Truncate message that `parseTruncateWalData` decodes, the two
option flags are equality tests on the options byte (the fifth byte of the
body): `IsCascade` is true exactly when it is 1 and `IsRestartIdentity`
exactly when it is 2. So the flags are never both true, and the options byte
3, which has both bits set, gives two false flags. -/
theorem truncate_option_flags (p : WalParser) (data : Bytes) (t : TruncateWalData)
    (h : parseTruncateWalData p data = .ok t) :
    ∃ opt : Byte, data[4]? = some opt ∧
      (t.IsCascade = true ↔ opt = 1) ∧ (t.IsRestartIdentity = true ↔ opt = 2) ∧
      ¬ (t.IsCascade = true ∧ t.IsRestartIdentity = true) ∧
      (opt = 3 → t.IsCascade = false ∧ t.IsRestartIdentity = false) := by
  simp only [parseTruncateWalData, Res.bind_eq, Res.bind_eq_ok] at h
  obtain ⟨n, -, flag, hflag, rest, -, h⟩ := h
  have hidx := (index_ok_getElem data _ flag hflag).2
  have h4 : ((0 : Int) + sizeOfInt32).toNat = 4 := by decide
  rw [h4] at hidx
  split at h
  · cases h
  · split at h
    · cases h
    · simp only [Res.bind_eq_ok] at h
      obtain ⟨relations, -, h⟩ := h
      cases h
      refine ⟨flag, hidx, by simp, by simp, ?_, ?_⟩
      · simp only [decide_eq_true_eq]
        rintro ⟨h1, h2⟩
        rw [h1] at h2
        exact absurd h2 (by decide)
      · intro h3
        subst h3
        exact ⟨rfl, rfl⟩

/-- The instance of C21: a Truncate body with the options byte 3 that lists
the cached relation `public.accounts`. -/
theorem truncate_option_flags_witness :
    parseTruncateWalData (NewWalParser.store 16385 accountsRelation)
        (be32 1 ++ 3 :: be32 16385)
      = .ok { Relations := [accountsRelation], IsCascade := false,
              IsRestartIdentity := false } ∧
    ∃ opt : Byte, (be32 1 ++ 3 :: be32 16385)[4]? = some opt ∧
      ((false : Bool) = true ↔ opt = 1) ∧ ((false : Bool) = true ↔ opt = 2) ∧
      ¬ ((false : Bool) = true ∧ (false : Bool) = true) ∧
      (opt = 3 → (false : Bool) = false ∧ (false : Bool) = false) :=
  ⟨by decide,
    truncate_option_flags (NewWalParser.store 16385 accountsRelation)
      (be32 1 ++ 3 :: be32 16385)
      { Relations := [accountsRelation], IsCascade := false, IsRestartIdentity := false }
      (by decide)⟩

/-- A call of `Parse` that returns keeps the cache invariant. -/
theorem Parse_keeps_invariant (p : WalParser) (xlog : XLogData) (wd : WalData)
    (err : Option Err) (p' : WalParser) (h : Parse p xlog = .returned wd err p')
    (hinv : CacheInvariant p) : CacheInvariant p' := by
  obtain ⟨lsn, data⟩ := xlog
  cases data with
  | nil => simp [Parse] at h
  | cons tag payload =>
    by_cases hR : tag = Relation
    · subst hR
      rw [Parse_relation] at h
      split at h
      · rename_i relation hrel
        cases h
        obtain ⟨-, h0, -, hcons⟩ := parseRelationWalData_consistent p payload relation hrel
        intro k r hk
        simp only [WalParser.store] at hk
        split at hk
        · rename_i hkid
          cases hk
          exact ⟨hkid.symm, h0, hcons.symm⟩
        · exact hinv k r hk
      · cases h
        exact hinv
      · cases h
    · rw [Parse_not_relation p lsn tag payload hR wd err p' h]
      exact hinv

theorem parseFrames_keeps_invariant :
    ∀ (frames : List XLogData) (s q : WalParser), CacheInvariant s →
      parseFrames s frames = some q → CacheInvariant q := by
  intro frames
  induction frames with
  | nil =>
    intro s q hs hq
    simp only [parseFrames] at hq
    cases hq
    exact hs
  | cons x xs ih =>
    intro s q hs hq
    simp only [parseFrames] at hq
    split at hq
    · rename_i wd err s' hpx
      exact ih s' q (Parse_keeps_invariant s x wd err s' hpx hs) hq
    · cases hq

/-- C22. Cache invariant. In every parser state reached from
`NewWalParser()` by a sequence of `Parse` calls that return (with or without
an error), every cached descriptor is stored under its own identifier, its
`ColumnsNum` is not negative and equals the length of `Columns`; hence every
index `i` with `0 ≤ i < ColumnsNum` into `Columns`, as `NewTupleData` uses
it, is in range. -/
theorem reachable_cache_invariant (frames : List XLogData) (q : WalParser)
    (hreach : parseFrames NewWalParser frames = some q) :
    ∀ (k : Int) (r : RelationWalData), q.relations k = some r →
      r.ID = k ∧ 0 ≤ r.ColumnsNum ∧ (r.Columns.length : Int) = r.ColumnsNum ∧
      ∀ i : Int, 0 ≤ i → i < r.ColumnsNum → ∃ c, index r.Columns i = .ok c := by
  have hfresh : CacheInvariant NewWalParser := by
    intro k r hk
    simp [NewWalParser] at hk
  have hinv := parseFrames_keeps_invariant frames NewWalParser q hfresh hreach
  intro k r hk
  obtain ⟨hid, h0, hlen⟩ := hinv k r hk
  exact ⟨hid, h0, hlen, fun i hi0 hi => index_in_range r.Columns i hi0 (by omega)⟩

/-- The instance of C22: the state reached by an Insert frame for an unknown
relation, the old Relation frame of `public.accounts` and its new Relation
frame holds the new descriptor under the identifier 16385. -/
theorem reachable_cache_invariant_witness :
    parseFrames NewWalParser
        [⟨0, Insert :: (be32 7 ++ 78 :: [0, 0])⟩, ⟨0, Relation :: accountsBodyOld⟩,
         ⟨0, Relation :: accountsBody⟩]
      = some ((NewWalParser.store 16385 accountsRelationOld).store 16385 accountsRelation) ∧
    accountsRelation.ID = 16385 ∧ 0 ≤ accountsRelation.ColumnsNum ∧
      (accountsRelation.Columns.length : Int) = accountsRelation.ColumnsNum ∧
      ∀ i : Int, 0 ≤ i → i < accountsRelation.ColumnsNum →
        ∃ c, index accountsRelation.Columns i = .ok c :=
  ⟨by rfl,
    reachable_cache_invariant
      [⟨0, Insert :: (be32 7 ++ 78 :: [0, 0])⟩, ⟨0, Relation :: accountsBodyOld⟩,
       ⟨0, Relation :: accountsBody⟩]
      ((NewWalParser.store 16385 accountsRelationOld).store 16385 accountsRelation)
      (by rfl) 16385 accountsRelation (by decide)⟩

end Pglogrepl
